import Mathlib

/-!
Verification of the context-correlation engine of the
Blankcut/kubernetes-mcp-server repository, against its natural-language
specification.

Shallow-embedding conventions used throughout this file:

* Go strings are byte sequences; they are modelled as `List Char`
  (all string data relevant to the claims is ASCII, where bytes and
  characters coincide).  `gs` converts a Lean string literal to this model.
* Go `int` is modelled as `Int` (no claim exercises 64-bit overflow).
* Go float arithmetic appears only in `TruncateContextSmartly`
  (`pkg/utils`), as `int(float64(x) * 0.6)` and `int(float64(x) * 0.4)`.
  It is modelled exactly as the rational values `6*x/10` and `4*x/10`
  truncated toward zero (`Int.tdiv`), which is Go's float-to-int
  conversion.  At every value exercised by the claims the IEEE-754
  double computation yields the same integer.
* A Go function that can panic (out-of-range string slicing) is modelled
  with an `Option` result, `none` denoting the panic.
* Fallible upstream calls (Kubernetes API, ArgoCD, GitLab) are modelled
  as explicit environments of `Except String` valued functions supplied
  as parameters.
* Go `map` values that the code only reads by key are modelled as
  association lists; where the code iterates over a map (whose order Go
  does not specify) the model iterates in list order, and the claims
  settled here are insensitive to that order.
-/

namespace KMCP

/-- Convert a Lean string literal to the Go-string model (`List Char`). -/
def gs (s : String) : List Char := s.toList

/-- Go `strings.HasPrefix`. -/
def goStartsWith (s pre : List Char) : Bool := pre.isPrefixOf s

/-- Go `strings.HasSuffix`. -/
def goEndsWith (s suf : List Char) : Bool := suf.reverse.isPrefixOf s.reverse

/-- Go `strings.Contains` (non-empty and empty needles, Go semantics:
the empty needle is always contained). -/
def goContains : List Char → List Char → Bool
  | _, [] => true
  | [], _ :: _ => false
  | c :: rest, sub => if sub.isPrefixOf (c :: rest) then true else goContains rest sub

/-- Go `strings.EqualFold`, restricted to ASCII case folding (the
repository compares ASCII resource kinds and project paths only). -/
def goEqualFold (a b : List Char) : Bool := a.map Char.toLower == b.map Char.toLower

/-- Go `strings.Split` with a single-character separator (the repository
only splits on `"/"` and `":"`). -/
def splitOnChar (sep : Char) : List Char → List (List Char)
  | [] => [[]]
  | c :: cs =>
    match splitOnChar sep cs with
    | [] => if c = sep then [[], []] else [[c]]
    | h :: t => if c = sep then [] :: h :: t else (c :: h) :: t

/-- Go `strings.Join` with a single-character separator. -/
def joinWithChar (sep : Char) : List (List Char) → List Char
  | [] => []
  | [x] => x
  | x :: y :: t => x ++ sep :: joinWithChar sep (y :: t)

/-- Go `strings.TrimSuffix`. -/
def goTrimSuffix (s suf : List Char) : List Char :=
  if suf.reverse.isPrefixOf s.reverse then s.take (s.length - suf.length) else s

/-- Index of the first `.` in a string, `-1` when absent
(Go `strings.Index(s, ".")`). -/
def indexOfDot : List Char → Int
  | [] => -1
  | c :: cs =>
    if c = '.' then 0
    else
      let r := indexOfDot cs
      if r ≥ 0 then r + 1 else -1

/-- Index of the last `.` in a string, `-1` when absent
(Go `strings.LastIndex(s, ".")`). -/
def lastIndexOfDot : List Char → Int
  | [] => -1
  | c :: cs =>
    let r := lastIndexOfDot cs
    if r ≥ 0 then r + 1 else if c = '.' then 0 else -1

/-- Go string slicing `s[:i]`; panics (`none`) unless `0 ≤ i ≤ len s`. -/
def goSliceTo (l : List Char) (i : Int) : Option (List Char) :=
  if 0 ≤ i ∧ i ≤ (l.length : Int) then some (l.take i.toNat) else none

/-- Go string slicing `s[i:]`; panics (`none`) unless `0 ≤ i ≤ len s`. -/
def goSliceFrom (l : List Char) (i : Int) : Option (List Char) :=
  if 0 ≤ i ∧ i ≤ (l.length : Int) then some (l.drop i.toNat) else none

/-- Go `int(float64(x) * 0.6)`: the exact value `6*x/10` truncated toward
zero (see the header note on float modelling). -/
def goScale6 (x : Int) : Int := Int.tdiv (x * 6) 10

/-- Go `int(float64(x) * 0.4)`: the exact value `4*x/10` truncated toward
zero. -/
def goScale4 (x : Int) : Int := Int.tdiv (x * 4) 10

/-- The truncation notice inserted by `TruncateContextSmartly`
(`pkg/utils/truncate.go`); 29 bytes long. -/
def truncateMsg : List Char := gs "\n\n[...Content truncated...]\n\n"

/-- `utils.TruncateContextSmartly(content, maxSize)`: keep the beginning
and the end of an over-long document, trimmed to sentence boundaries,
with a notice in between.  `none` models a Go slice-bounds panic. -/
def truncateContextSmartly (content : List Char) (maxSize : Int) : Option (List Char) :=
  if (content.length : Int) ≤ maxSize then some content
  else
    let reservedSize : Int := (truncateMsg.length : Int)
    let beginSize : Int := goScale6 (maxSize - reservedSize)
    let endSize : Int := goScale4 (maxSize - reservedSize)
    match goSliceTo content beginSize with
    | none => none
    | some bp =>
      let lastPeriod := lastIndexOfDot bp
      let beginPart := if lastPeriod > 0 then bp.take (lastPeriod + 1).toNat else bp
      match goSliceFrom content ((content.length : Int) - endSize) with
      | none => none
      | some ep =>
        let firstPeriod := indexOfDot ep
        let endPart := if firstPeriod > 0 then ep.drop (firstPeriod + 1).toNat else ep
        some (beginPart ++ truncateMsg ++ endPart)

theorem truncateMsg_length : truncateMsg.length = 29 := by decide

theorem goScale6_nonneg {x : Int} (h : 0 ≤ x) : 0 ≤ goScale6 x := by
  unfold goScale6
  have h6 : (0 : Int) ≤ x * 6 := by positivity
  rw [Int.tdiv_eq_ediv h6 (by norm_num)]
  exact Int.ediv_nonneg h6 (by norm_num)

theorem goScale4_nonneg {x : Int} (h : 0 ≤ x) : 0 ≤ goScale4 x := by
  unfold goScale4
  have h4 : (0 : Int) ≤ x * 4 := by positivity
  rw [Int.tdiv_eq_ediv h4 (by norm_num)]
  exact Int.ediv_nonneg h4 (by norm_num)

theorem goScale_sum_le {x : Int} (h : 0 ≤ x) : goScale6 x + goScale4 x ≤ x := by
  unfold goScale6 goScale4
  have h6 : (0 : Int) ≤ x * 6 := by positivity
  have h4 : (0 : Int) ≤ x * 4 := by positivity
  rw [Int.tdiv_eq_ediv h6 (by norm_num), Int.tdiv_eq_ediv h4 (by norm_num)]
  have m6 : (x * 6) / 10 * 10 ≤ x * 6 := Int.ediv_mul_le (x * 6) (by norm_num)
  have m4 : (x * 4) / 10 * 10 ≤ x * 4 := Int.ediv_mul_le (x * 4) (by norm_num)
  have : ((x * 6) / 10 + (x * 4) / 10) * 10 ≤ x * 10 := by nlinarith
  exact le_of_mul_le_mul_right this (by norm_num)

theorem goScale6_le {x : Int} (h : 0 ≤ x) : goScale6 x ≤ x :=
  le_trans (by have := goScale4_nonneg h; omega) (goScale_sum_le h)

theorem goScale4_le {x : Int} (h : 0 ≤ x) : goScale4 x ≤ x :=
  le_trans (by have := goScale6_nonneg h; omega) (goScale_sum_le h)

theorem goScale6_neg_le {x : Int} (h : x ≤ -2) : goScale6 x ≤ -1 := by
  unfold goScale6
  have hx : x * 6 = -(-x * 6) := by ring
  rw [hx, Int.neg_tdiv]
  have h6 : (0 : Int) ≤ -x * 6 := by nlinarith
  rw [Int.tdiv_eq_ediv h6 (by norm_num)]
  have h12 : (10 : Int) ≤ -x * 6 := by nlinarith
  have : (1 : Int) ≤ -x * 6 / 10 := by
    rw [Int.le_ediv_iff_mul_le (by norm_num)]
    omega
  omega

/-- Core size bound: on an over-long document with a limit of at least the
notice length, smart truncation succeeds and fits the limit. -/
theorem truncate_overflow_bound (s : List Char) (m : Int) (hm : 29 ≤ m)
    (hs : m < (s.length : Int)) :
    ∃ t, truncateContextSmartly s m = some t ∧ (t.length : Int) ≤ m := by
  have hr : 0 ≤ m - 29 := by omega
  have hb0 : 0 ≤ goScale6 (m - 29) := goScale6_nonneg hr
  have he0 : 0 ≤ goScale4 (m - 29) := goScale4_nonneg hr
  have hb1 : goScale6 (m - 29) ≤ m - 29 := goScale6_le hr
  have he1 : goScale4 (m - 29) ≤ m - 29 := goScale4_le hr
  have hsum : goScale6 (m - 29) + goScale4 (m - 29) ≤ m - 29 := goScale_sum_le hr
  unfold truncateContextSmartly goSliceTo goSliceFrom
  simp only [truncateMsg_length, Nat.cast_ofNat]
  rw [if_neg (by omega), if_pos ⟨hb0, by omega⟩]
  dsimp only
  rw [if_pos ⟨by omega, by omega⟩]
  dsimp only
  refine ⟨_, rfl, ?_⟩
  have hbp :
      (if lastIndexOfDot (s.take (goScale6 (m - 29)).toNat) > 0 then
          (s.take (goScale6 (m - 29)).toNat).take
            (lastIndexOfDot (s.take (goScale6 (m - 29)).toNat) + 1).toNat
        else s.take (goScale6 (m - 29)).toNat).length
        ≤ (goScale6 (m - 29)).toNat := by
    split
    · rw [List.length_take, List.length_take]
      omega
    · rw [List.length_take]
      omega
  have hep :
      (if indexOfDot (s.drop ((s.length : Int) - goScale4 (m - 29)).toNat) > 0 then
          (s.drop ((s.length : Int) - goScale4 (m - 29)).toNat).drop
            (indexOfDot (s.drop ((s.length : Int) - goScale4 (m - 29)).toNat) + 1).toNat
        else s.drop ((s.length : Int) - goScale4 (m - 29)).toNat).length
        ≤ (goScale4 (m - 29)).toNat := by
    split
    · rw [List.length_drop, List.length_drop]
      omega
    · rw [List.length_drop]
      omega
  rw [List.length_append, List.length_append, truncateMsg_length]
  omega

/-- At limit 28 and an over-long document both computed sizes are 0
(`int(-1*0.6) = int(-1*0.4) = 0`), so the result is exactly the notice. -/
theorem truncate_at_28 (s : List Char) (hs : 28 < (s.length : Int)) :
    truncateContextSmartly s 28 = some truncateMsg := by
  unfold truncateContextSmartly goSliceTo goSliceFrom
  simp only [truncateMsg_length, Nat.cast_ofNat]
  rw [if_neg (by omega)]
  rw [show goScale6 ((28 : Int) - 29) = 0 from by decide,
    show goScale4 ((28 : Int) - 29) = 0 from by decide]
  rw [if_pos ⟨le_refl 0, by omega⟩]
  dsimp only
  rw [if_pos ⟨by omega, by omega⟩]
  dsimp only
  rw [show ((0 : Int)).toNat = 0 from rfl, List.take_zero]
  rw [show ((s.length : Int) - 0).toNat = s.length from by omega, List.drop_length]
  rfl

/-- At a positive limit of at most 27 and an over-long document the
computed head size is negative, so the head slice panics. -/
theorem truncate_low_none (s : List Char) (m : Int) (hm : m ≤ 27)
    (hs : m < (s.length : Int)) : truncateContextSmartly s m = none := by
  have hneg : goScale6 (m - 29) ≤ -1 := goScale6_neg_le (by omega)
  unfold truncateContextSmartly goSliceTo
  simp only [truncateMsg_length, Nat.cast_ofNat]
  rw [if_neg (by omega), if_neg (by omega)]

/-- No `.` in a list means `strings.Index(s, ".") = -1`. -/
theorem indexOfDot_of_no_dot (l : List Char) (h : ∀ c ∈ l, c ≠ '.') :
    indexOfDot l = -1 := by
  induction l with
  | nil => rfl
  | cons c cs ih =>
    unfold indexOfDot
    rw [if_neg (h c (List.mem_cons_self c cs)), ih (fun x hx => h x (List.mem_cons_of_mem c hx))]
    rfl

/-- No `.` in a list means `strings.LastIndex(s, ".") = -1`. -/
theorem lastIndexOfDot_of_no_dot (l : List Char) (h : ∀ c ∈ l, c ≠ '.') :
    lastIndexOfDot l = -1 := by
  induction l with
  | nil => rfl
  | cons c cs ih =>
    unfold lastIndexOfDot
    rw [ih (fun x hx => h x (List.mem_cons_of_mem c hx))]
    rw [if_neg (by omega), if_neg (h c (List.mem_cons_self c cs))]

/-- C8.  Smart truncation is idempotent at a fixed limit, in the Kleisli
sense that also tracks panics: re-truncating the first result (when it
exists) returns it unchanged.  (At limit 28 this holds even though the
first output, the bare 29-character notice, exceeds the limit: the second
pass maps the notice to itself.) -/
theorem c8_truncate_idempotent (s : List Char) (m : Int) :
    (truncateContextSmartly s m).bind (fun t => truncateContextSmartly t m)
      = truncateContextSmartly s m := by
  by_cases hfit : (s.length : Int) ≤ m
  · have hT : truncateContextSmartly s m = some s := by
      unfold truncateContextSmartly
      rw [if_pos hfit]
    rw [hT, Option.some_bind]
    exact hT
  · by_cases h29 : 29 ≤ m
    · obtain ⟨t, hT, hlen⟩ := truncate_overflow_bound s m h29 (by omega)
      have hT2 : truncateContextSmartly t m = some t := by
        unfold truncateContextSmartly
        rw [if_pos hlen]
      rw [hT, Option.some_bind, hT2]
    · by_cases h28 : m = 28
      · subst h28
        have hT := truncate_at_28 s (by omega)
        rw [hT, Option.some_bind, truncate_at_28 truncateMsg (by decide)]
      · have hT := truncate_low_none s m (by omega) (by omega)
        rw [hT, Option.none_bind]

/-- C8 witness: idempotence evaluated at a concrete over-long input. -/
theorem c8_truncate_idempotent_witness :
    (truncateContextSmartly (List.replicate 40 'a') 30).bind
        (fun t => truncateContextSmartly t 30)
      = truncateContextSmartly (List.replicate 40 'a') 30 :=
  c8_truncate_idempotent (List.replicate 40 'a') 30

/-- C10 (amended).  Above the 29-byte notice length the function is total
and respects the limit; at positive limits up to 27 it panics on over-long
input.  (At limit 28 it neither panics nor respects the limit: see the
counterexample.) -/
theorem c10_truncate_totality (s : List Char) (m : Int) :
    (29 ≤ m → ∃ t, truncateContextSmartly s m = some t ∧ (t.length : Int) ≤ m)
    ∧ (0 < m → m ≤ 27 → m < (s.length : Int) → truncateContextSmartly s m = none) := by
  constructor
  · intro h29
    by_cases hfit : (s.length : Int) ≤ m
    · refine ⟨s, ?_, hfit⟩
      unfold truncateContextSmartly
      rw [if_pos hfit]
    · exact truncate_overflow_bound s m h29 (by omega)
  · intro _ h27 hs
    exact truncate_low_none s m h27 hs

/-- C10 witness: totality at limit 100 and the panic at limit 10, both on
a 40-byte document. -/
theorem c10_truncate_totality_witness :
    (∃ t, truncateContextSmartly (List.replicate 40 'a') 100 = some t
        ∧ (t.length : Int) ≤ 100)
    ∧ truncateContextSmartly (List.replicate 40 'a') 10 = none :=
  ⟨(c10_truncate_totality (List.replicate 40 'a') 100).1 (by norm_num),
   (c10_truncate_totality (List.replicate 40 'a') 10).2 (by norm_num) (by norm_num)
     (by simp)⟩

theorem no_dot_replicate_b (n : Nat) : ∀ c ∈ List.replicate n 'b', c ≠ '.' :=
  fun c hc => by rw [List.eq_of_mem_replicate hc]; decide

theorem lastIndexOfDot_adotb (n : Nat) :
    lastIndexOfDot ('a' :: '.' :: List.replicate n 'b') = 1 := by
  have h1 := lastIndexOfDot_of_no_dot (List.replicate n 'b') (no_dot_replicate_b n)
  simp only [lastIndexOfDot, h1]
  norm_num

/-- Evaluation helper for the C7 counterexample: any 250 000-character
document whose first 59 982 characters are `a.bbb...b` and whose last
39 988 characters are all `b` truncates to the 40 019-character result
`a.` + notice + `b`-tail, because the head window is trimmed back to the
period at index 1. -/
theorem truncate_adotb_eval (doc : List Char) (hlen : doc.length = 250000)
    (hhead : doc.take 59982 = 'a' :: '.' :: List.replicate 59980 'b')
    (htail : doc.drop 210012 = List.replicate 39988 'b') :
    truncateContextSmartly doc 100000
      = some (('a' :: '.' :: truncateMsg) ++ List.replicate 39988 'b') := by
  unfold truncateContextSmartly goSliceTo goSliceFrom
  simp only [truncateMsg_length, Nat.cast_ofNat]
  rw [if_neg (show ¬ ((doc.length : Int) ≤ 100000) from by rw [hlen]; norm_num)]
  rw [show goScale6 ((100000 : Int) - 29) = 59982 from by decide,
    show goScale4 ((100000 : Int) - 29) = 39988 from by decide]
  rw [if_pos ⟨show (0 : Int) ≤ 59982 from by norm_num,
    show (59982 : Int) ≤ (doc.length : Int) from by rw [hlen]; norm_num⟩]
  dsimp only
  rw [if_pos ⟨show (0 : Int) ≤ (doc.length : Int) - 39988 from by rw [hlen]; norm_num,
    show (doc.length : Int) - 39988 ≤ (doc.length : Int) from by omega⟩]
  dsimp only
  rw [show ((59982 : Int)).toNat = 59982 from rfl, hhead]
  rw [lastIndexOfDot_adotb]
  rw [if_pos (by norm_num)]
  rw [show (((doc.length : Int)) - 39988).toNat = 210012 from by rw [hlen]; decide, htail]
  rw [indexOfDot_of_no_dot (List.replicate 39988 'b') (no_dot_replicate_b _)]
  rw [if_neg (by norm_num)]
  rw [show ((1 : Int) + 1).toNat = 2 from rfl]
  rw [show List.take 2 ('a' :: '.' :: List.replicate 59980 'b') = ['a', '.'] from by
    rw [List.take_cons (by norm_num), List.take_cons (by norm_num)]
    norm_num]
  simp only [List.cons_append, List.nil_append]

/-- C7 counterexample to the claim as stated: a 250 000-character document
whose second character is a period and whose tail 40 % contains none.  The
head window is trimmed back to the period at index 1, so the output is
40 019 characters long — far below the claimed lower bound 99 900 — and it
does not begin with the first 1000 characters of the input. -/
theorem c7_truncation_counterexample :
    truncateContextSmartly ('a' :: '.' :: List.replicate 249998 'b') 100000
      = some (('a' :: '.' :: truncateMsg) ++ List.replicate 39988 'b')
    ∧ (('a' :: '.' :: truncateMsg) ++ List.replicate 39988 'b').length = 40019
    ∧ 40019 < 99900 := by
  refine ⟨?_, ?_, by norm_num⟩
  case refine_2 =>
    rw [List.length_append, List.length_cons, List.length_cons, truncateMsg_length,
      List.length_replicate]
  apply truncate_adotb_eval
  · rw [List.length_cons, List.length_cons, List.length_replicate]
  · rw [List.take_cons (by norm_num), List.take_cons (by norm_num), List.take_replicate]
    norm_num
  · rw [List.drop_succ_cons, List.drop_succ_cons, List.drop_replicate]

/-- C7 (amended).  For every 250 000-character document containing no
period, smart truncation at limit 100 000 keeps the first 59 982
characters and the last 39 988 characters around the notice: the output
is exactly 99 999 characters (within [99 900, 100 000]), contains the
notice, begins with the first 1000 characters of the input, and ends with
characters drawn from the last 40 % of the input (its tail is
`doc.drop 210012`, a suffix of the last 100 000 characters).  The
period-trimming steps make the general claim false (see the
counterexample); on period-free documents they are inert. -/
theorem c7_truncation_on_dotless_doc (doc : List Char)
    (hlen : doc.length = 250000) (hdot : ∀ c ∈ doc, c ≠ '.') :
    truncateContextSmartly doc 100000
      = some (doc.take 59982 ++ truncateMsg ++ doc.drop 210012)
    ∧ (doc.take 59982 ++ truncateMsg ++ doc.drop 210012).length = 99999
    ∧ (doc.take 59982 ++ truncateMsg ++ doc.drop 210012).take 1000 = doc.take 1000 := by
  have htake : (doc.take 59982).length = 59982 := by
    rw [List.length_take, hlen]
    norm_num
  have hdrop : (doc.drop 210012).length = 39988 := by
    rw [List.length_drop, hlen]
  refine ⟨?_, ?_, ?_⟩
  · unfold truncateContextSmartly goSliceTo goSliceFrom
    rw [hlen]
    simp only [truncateMsg_length, Nat.cast_ofNat]
    rw [if_neg (by norm_num)]
    rw [show goScale6 ((100000 : Int) - 29) = 59982 from by decide,
      show goScale4 ((100000 : Int) - 29) = 39988 from by decide]
    rw [if_pos ⟨by norm_num, by norm_num⟩]
    dsimp only
    rw [if_pos ⟨by norm_num, by norm_num⟩]
    dsimp only
    rw [show ((59982 : Int)).toNat = 59982 from rfl]
    rw [lastIndexOfDot_of_no_dot (doc.take 59982)
      (fun c hc => hdot c (List.mem_of_mem_take hc))]
    rw [if_neg (by norm_num)]
    rw [show ((250000 : Int) - 39988).toNat = 210012 from by decide]
    rw [indexOfDot_of_no_dot (doc.drop 210012)
      (fun c hc => hdot c (List.mem_of_mem_drop hc))]
    rw [if_neg (by norm_num)]
  · rw [List.length_append, List.length_append, truncateMsg_length, htake, hdrop]
  · rw [List.append_assoc, List.take_append_of_le_length (by rw [htake]; norm_num),
      List.take_take]
    norm_num

/-- C7 witness: the amended theorem applied to the all-`a` document of
length 250 000. -/
theorem c7_truncation_on_dotless_doc_witness :
    truncateContextSmartly (List.replicate 250000 'a') 100000
      = some ((List.replicate 250000 'a').take 59982 ++ truncateMsg
          ++ (List.replicate 250000 'a').drop 210012) :=
  (c7_truncation_on_dotless_doc (List.replicate 250000 'a') (List.length_replicate 250000 'a')
    (fun c hc => by rw [List.eq_of_mem_replicate hc]; decide)).1

/-- C10 counterexample to the claim as stated: at limit 28 (which is
positive and below the 29-byte notice length) and an over-long input the
computed head size is 0, not negative — there is no panic; the call
returns the bare notice, which itself exceeds the limit. -/
theorem c10_counterexample :
    truncateContextSmartly (List.replicate 29 'a') 28 = some truncateMsg
    ∧ truncateMsg.length = 29 :=
  ⟨truncate_at_28 (List.replicate 29 'a') (by simp), by decide⟩

/-!
Model of `unstructured.Unstructured` objects (dynamic Kubernetes
resources) and the apimachinery `NestedString` / `NestedInt64` /
`NestedMap` / `NestedSlice` accessors: a missing path or a value of the
wrong shape is "not found".
-/

/-- A dynamic (JSON-like) Kubernetes object value. -/
inductive UVal where
  | str (s : List Char)
  | int (n : Int)
  | bool (b : Bool)
  | arr (items : List UVal)
  | map (fields : List (List Char × UVal))

/-- The root of an unstructured object (`Unstructured.Object`). -/
abbrev UObj := List (List Char × UVal)

/-- Key lookup in an object map (Go map indexing; keys are unique in any
map built by the API machinery, so first-match lookup is faithful). -/
def lookupField : List (List Char × UVal) → List Char → Option UVal
  | [], _ => none
  | (k, v) :: rest, key => if k = key then some v else lookupField rest key

/-- Walk a field path through nested maps (`NestedFieldNoCopy`). -/
def nestedField : UVal → List (List Char) → Option UVal
  | v, [] => some v
  | .map fields, k :: ks =>
    match lookupField fields k with
    | some v => nestedField v ks
    | none => none
  | _, _ :: _ => none

/-- `unstructured.NestedString`. -/
def nestedString (v : UVal) (path : List (List Char)) : Option (List Char) :=
  match nestedField v path with
  | some (.str s) => some s
  | _ => none

/-- `unstructured.NestedInt64`. -/
def nestedInt (v : UVal) (path : List (List Char)) : Option Int :=
  match nestedField v path with
  | some (.int n) => some n
  | _ => none

/-- `unstructured.NestedMap`. -/
def nestedMap (v : UVal) (path : List (List Char)) : Option (List (List Char × UVal)) :=
  match nestedField v path with
  | some (.map m) => some m
  | _ => none

/-- `unstructured.NestedSlice`. -/
def nestedSlice (v : UVal) (path : List (List Char)) : Option (List UVal) :=
  match nestedField v path with
  | some (.arr l) => some l
  | _ => none

/-- `Unstructured.GetKind()` (empty when absent). -/
def getKind (obj : UObj) : List Char :=
  (nestedString (.map obj) [gs "kind"]).getD []

/-- `Unstructured.GetName()` (empty when absent). -/
def getName (obj : UObj) : List Char :=
  (nestedString (.map obj) [gs "metadata", gs "name"]).getD []

/-- Scan of `status.conditions` in the `Job` arm of
`determineResourceHealth`; falls out to `"progressing"`. -/
def jobConditionScan : List UVal → List Char
  | [] => gs "progressing"
  | c :: rest =>
    match c with
    | .map cond =>
      match nestedString (.map cond) [gs "type"], nestedString (.map cond) [gs "status"] with
      | some t, some s =>
        if t = gs "Complete" ∧ s = gs "True" then gs "healthy"
        else if t = gs "Failed" ∧ s = gs "True" then gs "unhealthy"
        else jobConditionScan rest
      | _, _ => jobConditionScan rest
    | _ => jobConditionScan rest

/-- Scan of `status.conditions` in the fallback arm of
`determineResourceHealth`; falls out to `"unknown"`. -/
def defaultConditionScan : List UVal → List Char
  | [] => gs "unknown"
  | c :: rest =>
    match c with
    | .map cond =>
      match nestedString (.map cond) [gs "type"], nestedString (.map cond) [gs "status"] with
      | some t, some s =>
        if (t = gs "Ready" ∨ t = gs "Available") ∧ s = gs "True" then gs "healthy"
        else if t = gs "Progressing" ∧ s = gs "True" then gs "progressing"
        else if (t = gs "Failed" ∨ t = gs "Error") ∧ s = gs "True" then gs "unhealthy"
        else defaultConditionScan rest
      | _, _ => defaultConditionScan rest
    | _ => defaultConditionScan rest

/-- `ResourceMapper.determineResourceHealth`
(`internal/k8s/resource_mapper.go`): per-kind health classification of a
dynamic resource. -/
def determineResourceHealth (obj : UObj) : List Char :=
  let kind := getKind obj
  match nestedMap (.map obj) [gs "status"] with
  | none => gs "unknown"
  | some status =>
    if kind = gs "Pod" then
      match nestedString (.map status) [gs "phase"] with
      | some phase =>
        if phase = gs "Running" ∨ phase = gs "Succeeded" then gs "healthy"
        else if phase = gs "Pending" then gs "progressing"
        else if phase = gs "Failed" then gs "unhealthy"
        else gs "unknown"
      | none => gs "unknown"
    else if kind = gs "Deployment" ∨ kind = gs "StatefulSet"
        ∨ kind = gs "DaemonSet" ∨ kind = gs "ReplicaSet" then
      let replicas := (nestedInt (.map obj) [gs "spec", gs "replicas"]).getD 1
      match nestedInt (.map status) [gs "availableReplicas"] with
      | some available =>
        if available = replicas then gs "healthy"
        else if available > 0 then gs "progressing"
        else gs "unhealthy"
      | none => gs "unhealthy"
    else if kind = gs "Service" then gs "healthy"
    else if kind = gs "Ingress" then
      match nestedSlice (.map status) [gs "loadBalancer", gs "ingress"] with
      | some ingress => if ingress.length > 0 then gs "healthy" else gs "progressing"
      | none => gs "progressing"
    else if kind = gs "PersistentVolumeClaim" then
      match nestedString (.map status) [gs "phase"] with
      | some phase =>
        if phase = gs "Bound" then gs "healthy"
        else if phase = gs "Pending" then gs "progressing"
        else gs "unhealthy"
      | none => gs "unhealthy"
    else if kind = gs "Job" then
      match nestedSlice (.map status) [gs "conditions"] with
      | some conds => jobConditionScan conds
      | none => gs "unknown"
    else
      match nestedSlice (.map status) [gs "conditions"] with
      | some conds => defaultConditionScan conds
      | none => gs "unknown"

/-- A Deployment with `spec.replicas = 1` and
`status.availableReplicas = 2` (more available than desired). -/
def overAvailableDeployment : UObj :=
  [(gs "kind", .str (gs "Deployment")),
   (gs "spec", .map [(gs "replicas", .int 1)]),
   (gs "status", .map [(gs "availableReplicas", .int 2)])]

/-- C5 counterexample to the claim as stated: with `R = 1` and `A = 2`
(`A > R`), the mapper returns `"progressing"`, not the claimed
`"unhealthy"` — the code's second arm only tests `A > 0`, not `A < R`. -/
theorem c5_health_counterexample :
    determineResourceHealth overAvailableDeployment = gs "progressing"
    ∧ determineResourceHealth overAvailableDeployment ≠ gs "unhealthy" := by
  constructor
  · decide
  · decide

/-- C5 (amended).  For every workload resource (Deployment, StatefulSet,
DaemonSet, ReplicaSet) carrying a `status` map: with `R = spec.replicas`
(default 1) and `A = status.availableReplicas`, the health is `healthy`
iff `A` is present and equal to `R`; `progressing` iff `A` is present,
`A ≠ R` and `A > 0` (which includes `A > R`, contrary to the original
claim); and `unhealthy` otherwise, i.e. exactly when `A` is absent or
`A ≤ 0` (with `A ≠ R`). -/
theorem c5_workload_health (obj : UObj) (st : List (List Char × UVal)) (R : Int)
    (hstatus : nestedMap (.map obj) [gs "status"] = some st)
    (hR : (nestedInt (.map obj) [gs "spec", gs "replicas"]).getD 1 = R)
    (hkind : getKind obj = gs "Deployment" ∨ getKind obj = gs "StatefulSet"
      ∨ getKind obj = gs "DaemonSet" ∨ getKind obj = gs "ReplicaSet") :
    (determineResourceHealth obj = gs "healthy"
      ↔ nestedInt (.map st) [gs "availableReplicas"] = some R)
    ∧ (determineResourceHealth obj = gs "progressing"
      ↔ ∃ a, nestedInt (.map st) [gs "availableReplicas"] = some a ∧ a ≠ R ∧ 0 < a)
    ∧ (determineResourceHealth obj = gs "unhealthy"
      ↔ (nestedInt (.map st) [gs "availableReplicas"] = none
        ∨ ∃ a, nestedInt (.map st) [gs "availableReplicas"] = some a ∧ a ≠ R ∧ a ≤ 0)) := by
  have hnotpod : ¬ getKind obj = gs "Pod" := by
    rcases hkind with h | h | h | h <;> rw [h] <;> decide
  have hmain : determineResourceHealth obj =
      (match nestedInt (.map st) [gs "availableReplicas"] with
       | some available =>
         if available = R then gs "healthy"
         else if available > 0 then gs "progressing"
         else gs "unhealthy"
       | none => gs "unhealthy") := by
    unfold determineResourceHealth
    rw [hstatus]
    dsimp only
    rw [if_neg hnotpod, if_pos hkind, hR]
  rw [hmain]
  rcases hA : nestedInt (.map st) [gs "availableReplicas"] with _ | a
  · dsimp only
    refine ⟨iff_of_false (by decide) (by simp), iff_of_false (by decide) ?_,
      iff_of_true rfl (Or.inl rfl)⟩
    rintro ⟨a, ha, -, -⟩
    cases ha
  · dsimp only
    by_cases heq : a = R
    · rw [if_pos heq]
      refine ⟨iff_of_true rfl (by rw [heq]), iff_of_false (by decide) ?_,
        iff_of_false (by decide) ?_⟩
      · rintro ⟨b, hb, hne, -⟩
        injection hb with hb'
        exact hne (hb' ▸ heq)
      · rintro (h | ⟨b, hb, hne, -⟩)
        · cases h
        · injection hb with hb'
          exact hne (hb' ▸ heq)
    · rw [if_neg heq]
      by_cases hpos : a > 0
      · rw [if_pos hpos]
        refine ⟨iff_of_false (by decide) ?_, iff_of_true rfl ⟨a, rfl, heq, hpos⟩,
          iff_of_false (by decide) ?_⟩
        · intro h
          injection h with h'
          exact heq h'
        · rintro (h | ⟨b, hb, -, hle⟩)
          · cases h
          · injection hb with hb'
            omega
      · rw [if_neg hpos]
        refine ⟨iff_of_false (by decide) ?_, iff_of_false (by decide) ?_,
          iff_of_true rfl (Or.inr ⟨a, rfl, heq, by omega⟩)⟩
        · intro h
          injection h with h'
          exact heq h'
        · rintro ⟨b, hb, -, hbpos⟩
          injection hb with hb'
          omega

/-- A Deployment with `spec.replicas = 3` and
`status.availableReplicas = 3`. -/
def healthyDeployment : UObj :=
  [(gs "kind", .str (gs "Deployment")),
   (gs "spec", .map [(gs "replicas", .int 3)]),
   (gs "status", .map [(gs "availableReplicas", .int 3)])]

/-- The status map of `healthyDeployment`. -/
def healthyDeploymentStatus : List (List Char × UVal) :=
  [(gs "availableReplicas", .int 3)]

/-- C5 witness: the amended characterization applied to a Deployment with
`R = A = 3`. -/
theorem c5_workload_health_witness :
    (determineResourceHealth healthyDeployment = gs "healthy"
      ↔ nestedInt (.map healthyDeploymentStatus) [gs "availableReplicas"] = some 3)
    ∧ (determineResourceHealth healthyDeployment = gs "progressing"
      ↔ ∃ a, nestedInt (.map healthyDeploymentStatus) [gs "availableReplicas"] = some a
          ∧ a ≠ 3 ∧ 0 < a)
    ∧ (determineResourceHealth healthyDeployment = gs "unhealthy"
      ↔ (nestedInt (.map healthyDeploymentStatus) [gs "availableReplicas"] = none
        ∨ ∃ a, nestedInt (.map healthyDeploymentStatus) [gs "availableReplicas"] = some a
            ∧ a ≠ 3 ∧ a ≤ 0)) :=
  c5_workload_health healthyDeployment healthyDeploymentStatus 3 rfl rfl (Or.inl rfl)

/-!
Model of `ResourceMapper.findRelationships` and the relationship part of
`GetNamespaceTopology` (`internal/k8s/resource_mapper.go`).
-/

/-- `ResourceRelationship` (the 7-tuple edge record). -/
structure ResourceRelationship where
  sourceKind : List Char
  sourceName : List Char
  sourceNamespace : List Char
  targetKind : List Char
  targetName : List Char
  targetNamespace : List Char
  relationType : List Char
  deriving DecidableEq

/-- The dedup key `fmt.Sprintf("%s/%s/%s/%s/%s/%s/%s", …)` built from the
seven fields. -/
def relKey (r : ResourceRelationship) : List Char :=
  r.sourceKind ++ gs "/" ++ r.sourceName ++ gs "/" ++ r.sourceNamespace ++ gs "/"
    ++ r.targetKind ++ gs "/" ++ r.targetName ++ gs "/" ++ r.targetNamespace ++ gs "/"
    ++ r.relationType

/-- The dedup loop at the end of `findRelationships`: keep the first
occurrence of each key (`relMap` made explicit as the list of seen keys). -/
def dedupByKey : List ResourceRelationship → List (List Char) → List ResourceRelationship
  | [], _ => []
  | r :: rs, seen =>
    if relKey r ∈ seen then dedupByKey rs seen
    else r :: dedupByKey rs (relKey r :: seen)

/-- The pod-listing capability `findRelationships` uses for Service
selectors (`clientset.CoreV1().Pods(ns).List` with a label selector);
returns pod names, or an error which the code silently swallows. -/
structure MapperEnv where
  listPodsBySelector : List Char → Except (List Char) (List (List Char))

/-- `ResourceMapper.labelsToSelector`: string-valued labels joined as
`k=v` with commas (map iteration modelled in list order). -/
def labelsToSelector (labels : List (List Char × UVal)) : List Char :=
  joinWithChar ',' (labels.filterMap fun kv =>
    match kv.2 with
    | .str v => some (kv.1 ++ gs "=" ++ v)
    | _ => none)

/-- Owner-reference edges: `ownerRef —owns→ resource`. -/
def ownerRels (obj : UObj) (ns : List Char) : List ResourceRelationship :=
  match nestedSlice (.map obj) [gs "metadata", gs "ownerReferences"] with
  | some refs => refs.filterMap fun r =>
      match r with
      | .map m => some
          { sourceKind := (nestedString (.map m) [gs "kind"]).getD []
            sourceName := (nestedString (.map m) [gs "name"]).getD []
            sourceNamespace := ns
            targetKind := getKind obj
            targetName := getName obj
            targetNamespace := ns
            relationType := gs "owns" }
      | _ => none
  | none => []

/-- `Service —selects→ Pod` edges via the label selector. -/
def serviceRels (env : MapperEnv) (obj : UObj) (ns : List Char) : List ResourceRelationship :=
  if getKind obj = gs "Service" then
    match nestedMap (.map obj) [gs "spec", gs "selector"] with
    | some sel =>
      if sel.length > 0 then
        match env.listPodsBySelector (labelsToSelector sel) with
        | .ok pods => pods.map fun p =>
            { sourceKind := gs "Service", sourceName := getName obj, sourceNamespace := ns
              targetKind := gs "Pod", targetName := p, targetNamespace := ns
              relationType := gs "selects" }
        | .error _ => []
      else []
    | none => []
  else []

/-- `Pod —mounts→ ConfigMap/Secret` edges from `spec.volumes`. -/
def podVolumeRels (obj : UObj) (ns : List Char) : List ResourceRelationship :=
  if getKind obj = gs "Pod" then
    match nestedSlice (.map obj) [gs "spec", gs "volumes"] with
    | some volumes => volumes.flatMap fun v =>
        match v with
        | .map volume =>
          (match nestedMap (.map volume) [gs "configMap"] with
           | some configMap =>
             match nestedString (.map configMap) [gs "name"] with
             | some cmName =>
               [{ sourceKind := gs "Pod", sourceName := getName obj, sourceNamespace := ns
                  targetKind := gs "ConfigMap", targetName := cmName, targetNamespace := ns
                  relationType := gs "mounts" }]
             | none => []
           | none => []) ++
          (match nestedMap (.map volume) [gs "secret"] with
           | some secret =>
             match nestedString (.map secret) [gs "secretName"] with
             | some secretName =>
               [{ sourceKind := gs "Pod", sourceName := getName obj, sourceNamespace := ns
                  targetKind := gs "Secret", targetName := secretName, targetNamespace := ns
                  relationType := gs "mounts" }]
             | none => []
           | none => [])
        | _ => []
    | none => []
  else []

/-- `Pod —configures→ ConfigMap/Secret` edges from one container's
`envFrom` entries. -/
def envFromRels (obj : UObj) (ns : List Char) (container : List (List Char × UVal)) :
    List ResourceRelationship :=
  match nestedSlice (.map container) [gs "envFrom"] with
  | some envFrom => envFrom.flatMap fun ef =>
      match ef with
      | .map envFromObj =>
        (match nestedMap (.map envFromObj) [gs "configMapRef"] with
         | some configMap =>
           match nestedString (.map configMap) [gs "name"] with
           | some cmName =>
             [{ sourceKind := gs "Pod", sourceName := getName obj, sourceNamespace := ns
                targetKind := gs "ConfigMap", targetName := cmName, targetNamespace := ns
                relationType := gs "configures" }]
           | none => []
         | none => []) ++
        (match nestedMap (.map envFromObj) [gs "secretRef"] with
         | some secret =>
           match nestedString (.map secret) [gs "name"] with
           | some secretName =>
             [{ sourceKind := gs "Pod", sourceName := getName obj, sourceNamespace := ns
                targetKind := gs "Secret", targetName := secretName, targetNamespace := ns
                relationType := gs "configures" }]
           | none => []
         | none => [])
      | _ => []
  | none => []

/-- `Pod —configures→ ConfigMap/Secret` edges from one container's `env`
entries (`valueFrom.configMapKeyRef` / `valueFrom.secretKeyRef`). -/
def envVarRels (obj : UObj) (ns : List Char) (container : List (List Char × UVal)) :
    List ResourceRelationship :=
  match nestedSlice (.map container) [gs "env"] with
  | some env => env.flatMap fun e =>
      match e with
      | .map envVar =>
        match nestedMap (.map envVar) [gs "valueFrom"] with
        | some valueFrom =>
          (match nestedMap (.map valueFrom) [gs "configMapKeyRef"] with
           | some configMap =>
             match nestedString (.map configMap) [gs "name"] with
             | some cmName =>
               [{ sourceKind := gs "Pod", sourceName := getName obj, sourceNamespace := ns
                  targetKind := gs "ConfigMap", targetName := cmName, targetNamespace := ns
                  relationType := gs "configures" }]
             | none => []
           | none => []) ++
          (match nestedMap (.map valueFrom) [gs "secretKeyRef"] with
           | some secret =>
             match nestedString (.map secret) [gs "name"] with
             | some secretName =>
               [{ sourceKind := gs "Pod", sourceName := getName obj, sourceNamespace := ns
                  targetKind := gs "Secret", targetName := secretName, targetNamespace := ns
                  relationType := gs "configures" }]
             | none => []
           | none => [])
        | none => []
      | _ => []
  | none => []

/-- All container-derived `configures` edges of a Pod. -/
def podEnvRels (obj : UObj) (ns : List Char) : List ResourceRelationship :=
  if getKind obj = gs "Pod" then
    match nestedSlice (.map obj) [gs "spec", gs "containers"] with
    | some containers => containers.flatMap fun c =>
        match c with
        | .map container => envFromRels obj ns container ++ envVarRels obj ns container
        | _ => []
    | none => []
  else []

/-- `PersistentVolumeClaim —binds→ PersistentVolume` edges. -/
def pvcRels (obj : UObj) (ns : List Char) : List ResourceRelationship :=
  if getKind obj = gs "PersistentVolumeClaim" then
    match nestedString (.map obj) [gs "spec", gs "volumeName"] with
    | some volumeName =>
      if volumeName ≠ [] then
        [{ sourceKind := gs "PersistentVolumeClaim", sourceName := getName obj
           sourceNamespace := ns, targetKind := gs "PersistentVolume"
           targetName := volumeName, targetNamespace := [], relationType := gs "binds" }]
      else []
    | none => []
  else []

/-- `Ingress —routes→ Service` edges.  Faithful to the code: the backend
map is fetched first; only when `backend` itself is ABSENT does the code
try `backend.service` ("newer API version format"), and the service name
is then read from the top level of whichever map was found. -/
def ingressRels (obj : UObj) (ns : List Char) : List ResourceRelationship :=
  if getKind obj = gs "Ingress" then
    match nestedSlice (.map obj) [gs "spec", gs "rules"] with
    | some rules => rules.flatMap fun r =>
        match r with
        | .map rule =>
          match nestedMap (.map rule) [gs "http"] with
          | some http =>
            match nestedSlice (.map http) [gs "paths"] with
            | some paths => paths.flatMap fun p =>
                match p with
                | .map path =>
                  let backend? :=
                    match nestedMap (.map path) [gs "backend"] with
                    | some b => some b
                    | none => nestedMap (.map path) [gs "backend", gs "service"]
                  match backend? with
                  | some backend =>
                    match nestedString (.map backend) [gs "name"] with
                    | some serviceName =>
                      [{ sourceKind := gs "Ingress", sourceName := getName obj
                         sourceNamespace := ns, targetKind := gs "Service"
                         targetName := serviceName, targetNamespace := ns
                         relationType := gs "routes" }]
                    | none => []
                  | none => []
                | _ => []
            | none => []
          | none => []
        | _ => []
    | none => []
  else []

/-- The per-resource emission order of `findRelationships`: owner
references, Service selector, Pod volumes, Pod env, PVC binding, Ingress
routes. -/
def resourceRels (env : MapperEnv) (obj : UObj) (ns : List Char) : List ResourceRelationship :=
  ownerRels obj ns ++ serviceRels env obj ns ++ podVolumeRels obj ns
    ++ podEnvRels obj ns ++ pvcRels obj ns ++ ingressRels obj ns

/-- `ResourceMapper.findRelationships`: emit edges for every resource of
one listed type, then deduplicate by the 7-field key string. -/
def findRelationships (env : MapperEnv) (resources : List UObj) (ns : List Char) :
    List ResourceRelationship :=
  dedupByKey (resources.flatMap fun obj => resourceRels env obj ns) []

/-- The relationship accumulation of `GetNamespaceTopology`: for every
discovered resource type with a non-empty listing, append that batch's
`findRelationships` output.  No deduplication happens across batches. -/
def namespaceTopologyRelationships (env : MapperEnv) (batches : List (List UObj))
    (ns : List Char) : List ResourceRelationship :=
  (batches.map fun items =>
    if items.length > 0 then findRelationships env items ns else []).flatten

/-- The 7-tuple deduplication described by the spec ("deduplicated by the
full 7-tuple"), stated from the spec's words for comparison: keep the
first occurrence of each complete record. -/
def dedup7Aux : List ResourceRelationship → List ResourceRelationship → List ResourceRelationship
  | [], _ => []
  | r :: rs, seen => if r ∈ seen then dedup7Aux rs seen else r :: dedup7Aux rs (r :: seen)

/-- Entry point of the spec-side 7-tuple deduplication. -/
def dedup7 (l : List ResourceRelationship) : List ResourceRelationship :=
  dedup7Aux l []

/-- An Ingress in the networking.k8s.io/v1 shape: the backend service
name sits under `backend.service.name`. -/
def v1Ingress : UObj :=
  [(gs "kind", .str (gs "Ingress")),
   (gs "metadata", .map [(gs "name", .str (gs "web"))]),
   (gs "spec", .map [(gs "rules", .arr [
     .map [(gs "http", .map [(gs "paths", .arr [
       .map [(gs "backend", .map [(gs "service",
         .map [(gs "name", .str (gs "svc")), (gs "port", .map [(gs "number", .int 80)])])])]])])]])])]

/-- An Ingress in the legacy shape the code actually handles: the backend
service name sits directly at `backend.name`. -/
def legacyIngress : UObj :=
  [(gs "kind", .str (gs "Ingress")),
   (gs "metadata", .map [(gs "name", .str (gs "web"))]),
   (gs "spec", .map [(gs "rules", .arr [
     .map [(gs "http", .map [(gs "paths", .arr [
       .map [(gs "backend", .map [(gs "name", .str (gs "svc"))])]])])]])])]

/-- A mapper environment whose pod listing always succeeds with no pods
(irrelevant to Ingress processing). -/
def trivialMapperEnv : MapperEnv := ⟨fun _ => .ok []⟩

/-- The `Ingress —routes→ Service` edge the legacy Ingress produces. -/
def webRoutesSvc : ResourceRelationship :=
  { sourceKind := gs "Ingress", sourceName := gs "web", sourceNamespace := gs "default"
    targetKind := gs "Service", targetName := gs "svc", targetNamespace := gs "default"
    relationType := gs "routes" }

/-- C6.  The v1 backend shape is silently dropped: because the `backend`
map exists (containing only `service`), the code never consults
`backend.service`, finds no `name` at the top level, and emits no edge —
while the comment in the source claims to handle the "newer API version
format", and its fallback is unreachable.  The legacy shape
(`backend.name`) does produce the `routes` edge. -/
theorem c6_ingress_v1_backend_dropped :
    findRelationships trivialMapperEnv [v1Ingress] (gs "default") = []
    ∧ findRelationships trivialMapperEnv [legacyIngress] (gs "default") = [webRoutesSvc] := by
  constructor
  · rfl
  · rfl

/-- Every element of the key-based dedup output has an unseen key, and
keys are pairwise distinct. -/
theorem dedupByKey_key_distinct (l : List ResourceRelationship) :
    ∀ seen : List (List Char),
      (∀ r ∈ dedupByKey l seen, relKey r ∉ seen)
      ∧ (dedupByKey l seen).Pairwise (fun a b => relKey a ≠ relKey b) := by
  induction l with
  | nil =>
    intro seen
    constructor
    · intro r hr
      cases hr
    · exact List.Pairwise.nil
  | cons r rs ih =>
    intro seen
    unfold dedupByKey
    by_cases h : relKey r ∈ seen
    · rw [if_pos h]
      exact ih seen
    · rw [if_neg h]
      obtain ⟨ih1, ih2⟩ := ih (relKey r :: seen)
      constructor
      · intro x hx
        rcases List.mem_cons.mp hx with hx | hx
        · rw [hx]
          exact h
        · intro hxseen
          exact ih1 x hx (List.mem_cons_of_mem _ hxseen)
      · refine List.Pairwise.cons ?_ ih2
        intro b hb heq
        exact ih1 b hb (heq ▸ List.mem_cons_self _ _)

/-- The spec-side 7-tuple dedup is the identity on duplicate-free lists
whose members avoid the seen set. -/
theorem dedup7Aux_of_nodup (l : List ResourceRelationship) :
    ∀ seen : List ResourceRelationship, l.Nodup → (∀ r ∈ l, r ∉ seen) →
      dedup7Aux l seen = l := by
  induction l with
  | nil =>
    intro seen _ _
    rfl
  | cons r rs ih =>
    intro seen hnodup hseen
    unfold dedup7Aux
    rw [if_neg (hseen r (List.mem_cons_self r rs))]
    rw [ih (r :: seen) (List.Nodup.of_cons hnodup) ?_]
    intro x hx
    rw [List.mem_cons]
    rintro (hxr | hxseen)
    · exact (List.nodup_cons.mp hnodup).1 (hxr ▸ hx)
    · exact hseen x (List.mem_cons_of_mem r hx) hxseen

/-- C9 (amended).  Within each per-resource-type batch, the relationship
list emitted by `findRelationships` contains no two entries equal on the
full 7-tuple: applying the spec's 7-tuple deduplication to a single
batch's output is the identity.  (Across appended batches this fails —
see the counterexample.) -/
theorem c9_per_batch_dedup_identity (env : MapperEnv) (resources : List UObj)
    (ns : List Char) :
    dedup7 (findRelationships env resources ns) = findRelationships env resources ns := by
  obtain ⟨-, hpair⟩ :=
    dedupByKey_key_distinct (resources.flatMap fun obj => resourceRels env obj ns) []
  unfold dedup7
  apply dedup7Aux_of_nodup
  · exact List.Pairwise.imp (fun hab heq => hab (congrArg relKey heq)) hpair
  · intro r _ hr
    cases hr

/-- C9 counterexample to the claim as stated: when the same Ingress is
listed under two discovered resource types (the same kind can appear in
two API groups), `GetNamespaceTopology` appends the two batches' edge
lists without cross-batch deduplication, so the topology's relationship
list carries the same 7-tuple twice and the 7-tuple dedup is not the
identity on it. -/
theorem c9_topology_dedup_counterexample :
    namespaceTopologyRelationships trivialMapperEnv [[legacyIngress], [legacyIngress]]
        (gs "default")
      = [webRoutesSvc, webRoutesSvc]
    ∧ dedup7 (namespaceTopologyRelationships trivialMapperEnv
        [[legacyIngress], [legacyIngress]] (gs "default"))
      ≠ namespaceTopologyRelationships trivialMapperEnv [[legacyIngress], [legacyIngress]]
        (gs "default") := by
  constructor
  · rfl
  · decide

/-!
Model of `TroubleshootCorrelator.generateRecommendations`
(`internal/correlator/troubleshoot.go`, `src/unnamed/part_006`).
-/

/-- `models.Issue`. -/
structure Issue where
  title : List Char := []
  category : List Char := []
  severity : List Char := []
  source : List Char := []
  description : List Char := []
  deriving DecidableEq

/-- Insertion into the recommendation set (`recommendationMap[r] = true`),
modelled as an insertion-ordered duplicate-free list. -/
def addRec (m : List (List Char)) (r : List Char) : List (List Char) :=
  if r ∈ m then m else m ++ [r]

/-- The switch arm of `generateRecommendations` for one issue category.
There is no `default` arm: a category matching none of the cases
contributes nothing. -/
def recsForCategory (cat : List Char) : List (List Char) :=
  if cat = gs "ImagePullError" then
    [gs "Check image name and credentials for accessing private registries.",
     gs "Verify that the image tag exists in the registry."]
  else if cat = gs "HealthCheckFailure" then
    [gs "Review liveness and readiness probe configuration.",
     gs "Check application logs for errors during startup."]
  else if cat = gs "ResourceIssue" then
    [gs "Review resource requests and limits in the deployment.",
     gs "Monitor resource usage to determine appropriate values."]
  else if cat = gs "CrashLoopBackOff" then
    [gs "Check container logs for errors.",
     gs "Verify environment variables and configuration."]
  else if cat = gs "SyncIssue" ∨ cat = gs "SyncFailure" then
    [gs "Check ArgoCD application manifest for errors.",
     gs "Verify that the target revision exists in the Git repository."]
  else if cat = gs "PipelineIssue" then
    [gs "Review GitLab pipeline logs for errors.",
     gs "Check if the pipeline configuration is valid."]
  else if cat = gs "DeploymentIssue" then
    [gs "Check GitLab deployment job logs for errors.",
     gs "Verify deployment environment configuration."]
  else if cat = gs "PodNotRunning" ∨ cat = gs "PodNotReady" ∨ cat = gs "PodInitializing" then
    [gs "Check pod events for scheduling or initialization issues.",
     gs "Examine init container logs for errors."]
  else if cat = gs "InitializationIssue" then
    [gs "Check init container logs for errors.",
     gs "Verify that volumes can be mounted properly."]
  else if cat = gs "ContainerReadinessIssue" then
    [gs "Review readiness probe configuration.",
     gs "Check container logs for application startup issues."]
  else if cat = gs "VolumeIssue" then
    [gs "Verify that PersistentVolumeClaims are bound.",
     gs "Check if storage classes are properly configured.",
     gs "Ensure sufficient storage space is available on the nodes."]
  else if cat = gs "SchedulingIssue" then
    [gs "Check if nodes have sufficient resources for the pod.",
     gs "Verify that node selectors or taints are not preventing scheduling."]
  else []

/-- The categories the recommendation switch actually handles. -/
def recommendationTableCategories : List (List Char) :=
  [gs "ImagePullError", gs "HealthCheckFailure", gs "ResourceIssue",
   gs "CrashLoopBackOff", gs "SyncIssue", gs "SyncFailure", gs "PipelineIssue",
   gs "DeploymentIssue", gs "PodNotRunning", gs "PodNotReady", gs "PodInitializing",
   gs "InitializationIssue", gs "ContainerReadinessIssue", gs "VolumeIssue",
   gs "SchedulingIssue"]

/-- The generic recommendations added only when no issues were found. -/
def genericRecommendations : List (List Char) :=
  [gs "Check pod logs for errors.",
   gs "Examine Kubernetes events for the resource.",
   gs "Verify network connectivity between components."]

/-- `generateRecommendations`: per-issue switch into a set, generic set
only when the issue list is empty, set converted to a list (Go iterates
the map in unspecified order; the model keeps insertion order, and the
properties settled here are order-independent). -/
def generateRecommendations (issues : List Issue) : List (List Char) :=
  let m := issues.foldl (fun m issue => (recsForCategory issue.category).foldl addRec m) []
  if issues.length = 0 then genericRecommendations.foldl addRec m else m

theorem addRec_nodup {m : List (List Char)} (h : m.Nodup) (r : List Char) :
    (addRec m r).Nodup := by
  unfold addRec
  split
  · exact h
  · rename_i hr
    rw [List.nodup_append]
    exact ⟨h, List.nodup_singleton r, by simpa using hr⟩

theorem foldl_addRec_nodup (rs : List (List Char)) :
    ∀ m : List (List Char), m.Nodup → (rs.foldl addRec m).Nodup := by
  induction rs with
  | nil => exact fun m h => h
  | cons r rest ih => exact fun m h => ih (addRec m r) (addRec_nodup h r)

theorem issues_foldl_nodup (issues : List Issue) :
    ∀ m : List (List Char), m.Nodup →
      (issues.foldl (fun m issue => (recsForCategory issue.category).foldl addRec m) m).Nodup := by
  induction issues with
  | nil => exact fun m h => h
  | cons i rest ih => exact fun m h => ih _ (foldl_addRec_nodup _ m h)

/-- A category outside the handled table matches no switch arm. -/
theorem recsForCategory_of_unknown (cat : List Char)
    (h : cat ∉ recommendationTableCategories) : recsForCategory cat = [] := by
  simp only [recommendationTableCategories, List.mem_cons, List.not_mem_nil, or_false,
    not_or] at h
  obtain ⟨h1, h2, h3, h4, h5, h6, h7, h8, h9, h10, h11, h12, h13, h14, h15⟩ := h
  unfold recsForCategory
  rw [if_neg h1, if_neg h2, if_neg h3, if_neg h4, if_neg (by tauto), if_neg h7,
    if_neg h8, if_neg (by tauto), if_neg h12, if_neg h13, if_neg h14, if_neg h15]

theorem issues_foldl_of_unknown (issues : List Issue)
    (h : ∀ i ∈ issues, i.category ∉ recommendationTableCategories) :
    ∀ m : List (List Char),
      issues.foldl (fun m issue => (recsForCategory issue.category).foldl addRec m) m = m := by
  induction issues with
  | nil => exact fun m => rfl
  | cons i rest ih =>
    intro m
    have hi : recsForCategory i.category = [] :=
      recsForCategory_of_unknown _ (h i (List.mem_cons_self i rest))
    show rest.foldl _ ((recsForCategory i.category).foldl addRec m) = m
    rw [hi]
    exact ih (fun x hx => h x (List.mem_cons_of_mem i hx)) m

/-- C4 (amended).  Recommendations are always duplicate-free; the empty
issue list yields exactly the three generic recommendations ("check pod
logs", "examine events", "verify network connectivity"); and — contrary
to the original claim — issues whose categories fall outside the closed
recommendation table contribute nothing at all: a non-empty issue list of
unknown categories produces an empty recommendation list, not the generic
one. -/
theorem c4_recommendation_mapping (issues : List Issue) :
    (generateRecommendations issues).Nodup
    ∧ (issues = [] → generateRecommendations issues = genericRecommendations)
    ∧ (issues ≠ [] → (∀ i ∈ issues, i.category ∉ recommendationTableCategories) →
        generateRecommendations issues = []) := by
  refine ⟨?_, ?_, ?_⟩
  · unfold generateRecommendations
    split
    · exact foldl_addRec_nodup _ _ (issues_foldl_nodup issues [] List.nodup_nil)
    · exact issues_foldl_nodup issues [] List.nodup_nil
  · intro h
    rw [h]
    rfl
  · intro hne hunk
    unfold generateRecommendations
    rw [issues_foldl_of_unknown issues hunk []]
    rw [if_neg (by simpa using fun h => hne (List.length_eq_zero.mp h))]

/-- C4 witness: the amended theorem applied to the empty issue list and
to a single issue of unknown category. -/
theorem c4_recommendation_mapping_witness :
    generateRecommendations [] = genericRecommendations
    ∧ generateRecommendations [{ category := gs "DeploymentNotAvailable" }] = [] :=
  ⟨(c4_recommendation_mapping []).2.1 rfl,
   (c4_recommendation_mapping [{ category := gs "DeploymentNotAvailable" }]).2.2
     (by simp) (by decide)⟩

/-- C4 counterexample to the claim as stated: an issue whose category —
`DeploymentNotAvailable`, a category the classifier really emits — is
outside the recommendation switch produces no recommendation at all; in
particular no generic "check pod logs / examine events" entries appear. -/
theorem c4_unknown_category_counterexample :
    generateRecommendations
        [{ title := gs "Deployment Not Available", category := gs "DeploymentNotAvailable",
           severity := gs "Warning", source := gs "Kubernetes" }] = [] := by
  rfl

/-!
Model of the GitOps correlator (`internal/correlator/gitops.go`) and the
data records it populates (`internal/models`).  Upstream clients are
modelled as environments of `Except`-valued functions; `time.Time`
values are carried as their RFC3339 renderings (the formatter only ever
renders them); the polymorphic `CreatedAt interface{}` fields are
modelled by `GoTime` below.
-/

/-- The dynamic `CreatedAt interface{}` timestamp: an int64 epoch, a
float64 epoch (both carried as the RFC3339 rendering the formatter
produces via `time.Unix`), a raw string together with the result of the
RFC3339 parse attempts (`none` when both layouts fail), or any other
dynamic type. -/
inductive GoTime where
  | intEpoch (rendered : List Char)
  | floatEpoch (rendered : List Char)
  | strTime (raw : List Char) (parsed : Option (List Char))
  | unknown
  deriving DecidableEq

/-- The timestamp rendering switch the formatter performs on a `GoTime`:
epochs render via `time.Unix`, strings render their parse result or pass
through raw, anything else becomes "unknown timestamp". -/
def renderGoTime : GoTime → List Char
  | .intEpoch rendered => rendered
  | .floatEpoch rendered => rendered
  | .strTime raw parsed => parsed.getD raw
  | .unknown => gs "unknown timestamp"

/-- `models.K8sEvent` (the fields the engine reads). -/
structure K8sEvent where
  reason : List Char := []
  message : List Char := []
  eventType : List Char := []
  deriving DecidableEq

/-- `models.ArgoApplication` (the fields the correlator and formatter
read; `metadataLabels` is `Metadata.Labels`, `name` is the top-level
`Name`, the `source…`/`destination…` fields flatten `Spec`). -/
structure ArgoApplication where
  name : List Char := []
  metadataLabels : List (List Char × List Char) := []
  sourceRepoURL : List Char := []
  sourcePath : List Char := []
  sourceTargetRevision : List Char := []
  destinationNamespace : List Char := []
  syncStatus : List Char := []
  healthStatus : List Char := []
  deriving DecidableEq

/-- `models.ArgoApplicationHistory` (`deployedAt` carried pre-rendered). -/
structure ArgoHistoryEntry where
  revision : List Char := []
  status : List Char := []
  deployedAt : List Char := []
  deriving DecidableEq

/-- `models.GitLabProject` (the fields the correlator and formatter read). -/
structure GitLabProject where
  id : Int := 0
  pathWithNamespace : List Char := []
  webURL : List Char := []
  deriving DecidableEq

/-- `models.GitLabPipeline`. -/
structure GitLabPipeline where
  status : List Char := []
  ref : List Char := []
  sha : List Char := []
  createdAt : GoTime := .unknown
  deriving DecidableEq

/-- `models.GitLabDeployment` (`environmentName` is `Environment.Name`). -/
structure GitLabDeployment where
  status : List Char := []
  environmentName : List Char := []
  createdAt : GoTime := .unknown
  deriving DecidableEq

/-- `models.GitLabCommit`. -/
structure GitLabCommit where
  shortID : List Char := []
  title : List Char := []
  authorName : List Char := []
  createdAt : GoTime := .unknown
  deriving DecidableEq

/-- `models.GitLabDiff` (the two path fields the correlator reads). -/
structure GitLabDiff where
  oldPath : List Char := []
  newPath : List Char := []
  deriving DecidableEq

/-- One container's `resources.requests` / `resources.limits`, as the
formatter's type assertions expose them (string renderings of the
quantity values, in map-iteration order). -/
structure ContainerResources where
  requests : Option (List (List Char × List Char)) := none
  limits : Option (List (List Char × List Char)) := none
  deriving DecidableEq

/-- One entry of the `containers` metadata slice. -/
structure ContainerInfo where
  name : List Char := []
  image : Option (List Char) := none
  resources : Option ContainerResources := none
  deriving DecidableEq

/-- The `ResourceContext.Metadata` map, modelled by the exact keys and
dynamic types the formatter asserts (`none` = key absent or of another
dynamic type). -/
structure RCMetadata where
  desiredReplicas : Option Int := none
  currentReplicas : Option Int := none
  readyReplicas : Option Int := none
  availableReplicas : Option Int := none
  containers : Option (List ContainerInfo) := none
  resourceCounts : Option (List (List Char × List (List Char))) := none
  health : Option (List (List Char × List (List Char × List Char))) := none
  deriving DecidableEq

/-- `models.ResourceContext` (`namespace'` models the Go field
`Namespace`; `namespace` is a Lean keyword). -/
structure ResourceContext where
  kind : List Char := []
  name : List Char := []
  namespace' : List Char := []
  apiVersion : List Char := []
  metadata : Option RCMetadata := none
  resourceData : List Char := []
  argoApplication : Option ArgoApplication := none
  argoSyncStatus : List Char := []
  argoHealthStatus : List Char := []
  argoSyncHistory : List ArgoHistoryEntry := []
  gitlabProject : Option GitLabProject := none
  lastPipeline : Option GitLabPipeline := none
  lastDeployment : Option GitLabDeployment := none
  recentCommits : List GitLabCommit := []
  events : List K8sEvent := []
  relatedResources : List (List Char) := []
  errors : List (List Char) := []
  deriving DecidableEq

/-- `fmt.Sprintf("%d", n)`. -/
def intToStr (n : Int) : List Char := (toString n).toList

/-- `extractGitLabProjectPath`: strip scheme and host from
`http(s)://host/ns/proj(.git)` or `git@host:ns/proj(.git)`; empty on
anything else. -/
def extractGitLabProjectPath (repoURL : List Char) : List Char :=
  if goStartsWith repoURL (gs "https://") || goStartsWith repoURL (gs "http://") then
    let parts := splitOnChar '/' repoURL
    if parts.length < 3 then []
    else
      let lastPart := (parts.getLast?).getD []
      let fixedLast :=
        if goEndsWith lastPart (gs ".git") then lastPart.take (lastPart.length - 4)
        else lastPart
      let parts := parts.dropLast ++ [fixedLast]
      if parts.length ≤ 3 then []
      else joinWithChar '/' (parts.drop 3)
  else if goStartsWith repoURL (gs "git@") then
    match splitOnChar ':' repoURL with
    | [_, pathPart] => goTrimSuffix pathPart (gs ".git")
    | _ => []
  else []

/-- `extractEnvironmentFromArgoApp`: labels first, then destination
namespace containing prod/staging/dev, then source path containing the
same tokens, else the destination namespace verbatim. -/
def extractEnvironmentFromArgoApp (app : ArgoApplication) : List Char :=
  match (app.metadataLabels.find? fun kv => decide (kv.1 = gs "environment")) with
  | some kv => kv.2
  | none =>
    match (app.metadataLabels.find? fun kv => decide (kv.1 = gs "env")) with
    | some kv => kv.2
    | none =>
      if goContains app.destinationNamespace (gs "prod") then gs "production"
      else if goContains app.destinationNamespace (gs "staging") then gs "staging"
      else if goContains app.destinationNamespace (gs "dev") then gs "development"
      else if app.sourcePath ≠ [] ∧ goContains app.sourcePath (gs "prod") then gs "production"
      else if app.sourcePath ≠ [] ∧ goContains app.sourcePath (gs "staging") then gs "staging"
      else if app.sourcePath ≠ [] ∧ goContains app.sourcePath (gs "dev") then gs "development"
      else app.destinationNamespace

/-- The upstream capabilities `TraceResourceDeployment` calls, as
functions of the arguments the code passes.  `getResource` returns the
fetched resource's `apiVersion` — the only field the trace reads. -/
structure TraceEnv where
  getResource : List Char → List Char → List Char → Except (List Char) (List Char)
  getResourceEvents : List Char → List Char → List Char → Except (List Char) (List K8sEvent)
  findApplicationsByResource :
    List Char → List Char → List Char → Except (List Char) (List ArgoApplication)
  getApplicationHistory : List Char → Except (List Char) (List ArgoHistoryEntry)
  getProjectByPath : List Char → Except (List Char) GitLabProject
  listPipelines : List Char → Except (List Char) (List GitLabPipeline)
  findRecentDeployments : List Char → List Char → Except (List Char) (List GitLabDeployment)
  findRecentChanges : List Char → Except (List Char) (List GitLabCommit)

/-- Pipeline listing sub-step of the GitLab section of
`TraceResourceDeployment` (`ListPipelines` + keep the first). -/
def tracePipelinesStep (env : TraceEnv) (project : GitLabProject)
    (rc : ResourceContext) (errs : List (List Char)) :
    ResourceContext × List (List Char) :=
  match env.listPipelines (intToStr project.id) with
  | .error e => (rc, errs ++ [gs "Failed to list pipelines: " ++ e])
  | .ok [] => (rc, errs)
  | .ok (p :: _) => ({ rc with lastPipeline := some p }, errs)

/-- Deployment lookup sub-step (guarded on a non-empty inferred
environment; `FindRecentDeployments` + keep the first). -/
def traceDeploymentsStep (env : TraceEnv) (project : GitLabProject)
    (environment : List Char) (rc : ResourceContext) (errs : List (List Char)) :
    ResourceContext × List (List Char) :=
  if environment ≠ [] then
    match env.findRecentDeployments (intToStr project.id) environment with
    | .error e => (rc, errs ++ [gs "Failed to find deployments: " ++ e])
    | .ok [] => (rc, errs)
    | .ok (d :: _) => ({ rc with lastDeployment := some d }, errs)
  else (rc, errs)

/-- Recent-commit sub-step (`FindRecentChanges`, capped at 5). -/
def traceCommitsStep (env : TraceEnv) (project : GitLabProject)
    (rc : ResourceContext) (errs : List (List Char)) :
    ResourceContext × List (List Char) :=
  match env.findRecentChanges (intToStr project.id) with
  | .error e => (rc, errs ++ [gs "Failed to find recent changes: " ++ e])
  | .ok commits => ({ rc with recentCommits := commits.take 5 }, errs)

/-- The GitLab section once a project was resolved: record the project,
then pipelines, deployments (for the environment inferred from the
application), and recent commits. -/
def traceGitlabSteps (env : TraceEnv) (app : ArgoApplication) (project : GitLabProject)
    (rc : ResourceContext) (errs : List (List Char)) :
    ResourceContext × List (List Char) :=
  let s1 := tracePipelinesStep env project { rc with gitlabProject := some project } errs
  let s2 := traceDeploymentsStep env project (extractEnvironmentFromArgoApp app) s1.1 s1.2
  traceCommitsStep env project s2.1 s2.2

/-- The ArgoCD section once a managing application was found: copy sync
and health status, fetch the trimmed history, then — when the source URL
yields a GitLab project path — the GitLab section. -/
def traceArgoStep (env : TraceEnv) (app : ArgoApplication)
    (rc : ResourceContext) (errs : List (List Char)) :
    ResourceContext × List (List Char) :=
  let rcB := { rc with
    argoApplication := some app
    argoSyncStatus := app.syncStatus
    argoHealthStatus := app.healthStatus }
  let sH :=
    match env.getApplicationHistory app.name with
    | .error e => (rcB, errs ++ [gs "Failed to get application history: " ++ e])
    | .ok history => ({ rcB with argoSyncHistory := history.take 5 }, errs)
  if app.sourceRepoURL ≠ [] then
    let projectPath := extractGitLabProjectPath app.sourceRepoURL
    if projectPath ≠ [] then
      match env.getProjectByPath projectPath with
      | .error e => (sH.1, sH.2 ++ [gs "Failed to get GitLab project: " ++ e])
      | .ok project => traceGitlabSteps env app project sH.1 sH.2
    else sH
  else sH

/-- Steps 1–2 of the trace: fetch the resource (recording its
`apiVersion`) and, only on success, its events. -/
def traceStep1 (env : TraceEnv) (namespace' kind name : List Char) :
    ResourceContext × List (List Char) :=
  let rc0 : ResourceContext := { kind := kind, name := name, namespace' := namespace' }
  match env.getResource kind namespace' name with
  | .error e => (rc0, [gs "Failed to get Kubernetes resource: " ++ e])
  | .ok apiVersion =>
    let rcA := { rc0 with apiVersion := apiVersion }
    match env.getResourceEvents namespace' kind name with
    | .error e => (rcA, [gs "Failed to get resource events: " ++ e])
    | .ok events => ({ rcA with events := events }, [])

/-- Step 3 of the trace: find the managing ArgoCD application and, when
one exists, run the ArgoCD/GitLab sections with the first match. -/
def traceStep2 (env : TraceEnv) (namespace' kind name : List Char)
    (rc : ResourceContext) (errs : List (List Char)) :
    ResourceContext × List (List Char) :=
  match env.findApplicationsByResource kind name namespace' with
  | .error e => (rc, errs ++ [gs "Failed to find ArgoCD applications: " ++ e])
  | .ok [] => (rc, errs)
  | .ok (app :: _) => traceArgoStep env app rc errs

/-- `GitOpsCorrelator.TraceResourceDeployment`: best-effort pipeline; the
pair's second component is the returned Go `error` (always `nil`), and
every failed step appends one message to the context's `errors`. -/
def traceResourceDeployment (env : TraceEnv) (namespace' kind name : List Char) :
    ResourceContext × Option (List Char) :=
  let s1 := traceStep1 env namespace' kind name
  let s2 := traceStep2 env namespace' kind name s1.1 s1.2
  ({ s2.1 with errors := s2.2 }, none)

/-- Failed-step count of the GitLab section. -/
def failedGitlab (env : TraceEnv) (app : ArgoApplication) (project : GitLabProject) : Nat :=
  (match env.listPipelines (intToStr project.id) with
   | .error _ => 1
   | .ok _ => 0)
  + (if extractEnvironmentFromArgoApp app ≠ [] then
      match env.findRecentDeployments (intToStr project.id)
          (extractEnvironmentFromArgoApp app) with
      | .error _ => 1
      | .ok _ => 0
    else 0)
  + (match env.findRecentChanges (intToStr project.id) with
     | .error _ => 1
     | .ok _ => 0)

/-- Failed-step count of the ArgoCD section (history, then the GitLab
section when it runs). -/
def failedArgo (env : TraceEnv) (app : ArgoApplication) : Nat :=
  (match env.getApplicationHistory app.name with
   | .error _ => 1
   | .ok _ => 0)
  + if app.sourceRepoURL ≠ [] ∧ extractGitLabProjectPath app.sourceRepoURL ≠ [] then
      match env.getProjectByPath (extractGitLabProjectPath app.sourceRepoURL) with
      | .error _ => 1
      | .ok project => failedGitlab env app project
    else 0

/-- The number of failed upstream steps the trace actually executes (each
failed step is supposed to contribute exactly one error string). -/
def numFailedSteps (env : TraceEnv) (namespace' kind name : List Char) : Nat :=
  (match env.getResource kind namespace' name with
   | .error _ => 1
   | .ok _ =>
     match env.getResourceEvents namespace' kind name with
     | .error _ => 1
     | .ok _ => 0)
  + match env.findApplicationsByResource kind name namespace' with
    | .error _ => 1
    | .ok [] => 0
    | .ok (app :: _) => failedArgo env app

/-- The identity/evidence fields a stage must not touch, plus the exact
error-count increment. -/
def stagePreserves (stage : ResourceContext → List (List Char) → ResourceContext × List (List Char))
    (extra : Nat) : Prop :=
  ∀ (rc : ResourceContext) (errs : List (List Char)),
    (stage rc errs).1.kind = rc.kind
    ∧ (stage rc errs).1.name = rc.name
    ∧ (stage rc errs).1.namespace' = rc.namespace'
    ∧ (stage rc errs).1.relatedResources = rc.relatedResources
    ∧ (stage rc errs).2.length = errs.length + extra

theorem tracePipelinesStep_spec (env : TraceEnv) (project : GitLabProject) :
    stagePreserves (tracePipelinesStep env project)
      (match env.listPipelines (intToStr project.id) with
       | .error _ => 1
       | .ok _ => 0) := by
  intro rc errs
  unfold tracePipelinesStep
  rcases env.listPipelines (intToStr project.id) with e | ps
  · simp
  · rcases ps with _ | ⟨p, rest⟩ <;> simp

theorem traceDeploymentsStep_spec (env : TraceEnv) (project : GitLabProject)
    (environment : List Char) :
    stagePreserves (traceDeploymentsStep env project environment)
      (if environment ≠ [] then
        match env.findRecentDeployments (intToStr project.id) environment with
        | .error _ => 1
        | .ok _ => 0
      else 0) := by
  intro rc errs
  unfold traceDeploymentsStep
  by_cases he : environment ≠ []
  · rw [if_pos he, if_pos he]
    rcases env.findRecentDeployments (intToStr project.id) environment with e | ds
    · simp
    · rcases ds with _ | ⟨d, rest⟩ <;> simp
  · rw [if_neg he, if_neg he]
    simp

theorem traceCommitsStep_spec (env : TraceEnv) (project : GitLabProject) :
    stagePreserves (traceCommitsStep env project)
      (match env.findRecentChanges (intToStr project.id) with
       | .error _ => 1
       | .ok _ => 0) := by
  intro rc errs
  unfold traceCommitsStep
  rcases env.findRecentChanges (intToStr project.id) with e | cs <;> simp

theorem traceGitlabSteps_spec (env : TraceEnv) (app : ArgoApplication)
    (project : GitLabProject) :
    stagePreserves (traceGitlabSteps env app project) (failedGitlab env app project) := by
  intro rc errs
  unfold traceGitlabSteps failedGitlab
  obtain ⟨p1, p2, p3, p4, p5⟩ := tracePipelinesStep_spec env project
    { rc with gitlabProject := some project } errs
  obtain ⟨q1, q2, q3, q4, q5⟩ := traceDeploymentsStep_spec env project
    (extractEnvironmentFromArgoApp app)
    (tracePipelinesStep env project { rc with gitlabProject := some project } errs).1
    (tracePipelinesStep env project { rc with gitlabProject := some project } errs).2
  obtain ⟨r1, r2, r3, r4, r5⟩ := traceCommitsStep_spec env project
    (traceDeploymentsStep env project (extractEnvironmentFromArgoApp app)
      (tracePipelinesStep env project { rc with gitlabProject := some project } errs).1
      (tracePipelinesStep env project { rc with gitlabProject := some project } errs).2).1
    (traceDeploymentsStep env project (extractEnvironmentFromArgoApp app)
      (tracePipelinesStep env project { rc with gitlabProject := some project } errs).1
      (tracePipelinesStep env project { rc with gitlabProject := some project } errs).2).2
  refine ⟨?_, ?_, ?_, ?_, ?_⟩
  · rw [r1, q1, p1]
  · rw [r2, q2, p2]
  · rw [r3, q3, p3]
  · rw [r4, q4, p4]
  · rw [r5, q5, p5]
    ring

theorem traceArgoStep_spec (env : TraceEnv) (app : ArgoApplication) :
    stagePreserves (traceArgoStep env app) (failedArgo env app) := by
  intro rc errs
  unfold traceArgoStep failedArgo
  rcases hh : env.getApplicationHistory app.name with e | history
  all_goals (
    by_cases hrepo : app.sourceRepoURL ≠ []
    · rw [if_pos hrepo]
      by_cases hpath : extractGitLabProjectPath app.sourceRepoURL ≠ []
      · rw [if_pos hpath, if_pos ⟨hrepo, hpath⟩]
        rcases hp : env.getProjectByPath (extractGitLabProjectPath app.sourceRepoURL)
          with e2 | project
        · simp
        · obtain ⟨g1, g2, g3, g4, g5⟩ := traceGitlabSteps_spec env app project _ _
          refine ⟨by rw [g1], by rw [g2], by rw [g3], by rw [g4],
            by rw [g5]; simp only [List.length_append, List.length_singleton]; omega⟩
      · rw [if_neg hpath, if_neg (by tauto)]
        simp
    · rw [if_neg hrepo, if_neg (by tauto)]
      simp)

theorem traceStep1_spec (env : TraceEnv) (namespace' kind name : List Char) :
    (traceStep1 env namespace' kind name).1.kind = kind
    ∧ (traceStep1 env namespace' kind name).1.name = name
    ∧ (traceStep1 env namespace' kind name).1.namespace' = namespace'
    ∧ (traceStep1 env namespace' kind name).1.relatedResources = []
    ∧ (traceStep1 env namespace' kind name).2.length
        = (match env.getResource kind namespace' name with
           | .error _ => 1
           | .ok _ =>
             match env.getResourceEvents namespace' kind name with
             | .error _ => 1
             | .ok _ => 0) := by
  unfold traceStep1
  rcases env.getResource kind namespace' name with e | apiVersion
  · simp
  · rcases env.getResourceEvents namespace' kind name with e | events <;> simp

theorem traceStep2_spec (env : TraceEnv) (namespace' kind name : List Char) :
    stagePreserves (traceStep2 env namespace' kind name)
      (match env.findApplicationsByResource kind name namespace' with
       | .error _ => 1
       | .ok [] => 0
       | .ok (app :: _) => failedArgo env app) := by
  intro rc errs
  unfold traceStep2
  rcases env.findApplicationsByResource kind name namespace' with e | apps
  · simp
  · rcases apps with _ | ⟨app, rest⟩
    · simp
    · exact traceArgoStep_spec env app rc errs

/-- Structural facts about one trace call: the Go error is always `nil`,
the identity fields echo the arguments, `relatedResources` is never
touched, and the error list holds exactly one string per failed executed
step. -/
theorem trace_fields (env : TraceEnv) (namespace' kind name : List Char) :
    (traceResourceDeployment env namespace' kind name).2 = none
    ∧ (traceResourceDeployment env namespace' kind name).1.kind = kind
    ∧ (traceResourceDeployment env namespace' kind name).1.name = name
    ∧ (traceResourceDeployment env namespace' kind name).1.namespace' = namespace'
    ∧ (traceResourceDeployment env namespace' kind name).1.relatedResources = []
    ∧ (traceResourceDeployment env namespace' kind name).1.errors.length
        = numFailedSteps env namespace' kind name := by
  obtain ⟨a1, a2, a3, a4, a5⟩ := traceStep1_spec env namespace' kind name
  obtain ⟨b1, b2, b3, b4, b5⟩ := traceStep2_spec env namespace' kind name
    (traceStep1 env namespace' kind name).1 (traceStep1 env namespace' kind name).2
  unfold traceResourceDeployment numFailedSteps
  refine ⟨rfl, ?_, ?_, ?_, ?_, ?_⟩
  · show (traceStep2 env namespace' kind name _ _).1.kind = kind
    rw [b1, a1]
  · show (traceStep2 env namespace' kind name _ _).1.name = name
    rw [b2, a2]
  · show (traceStep2 env namespace' kind name _ _).1.namespace' = namespace'
    rw [b3, a3]
  · show (traceStep2 env namespace' kind name _ _).1.relatedResources = []
    rw [b4, a4]
  · show (traceStep2 env namespace' kind name _ _).2.length = _
    rw [b5, a5]

/-- C2.  For every combination of upstream outcomes, `TraceResourceDeployment`
returns a nil Go error together with a `ResourceContext` whose `Kind`,
`Name` and `Namespace` equal the call arguments, and whose error list
contains exactly one string per failed executed step (`numFailedSteps`):
upstream failures accumulate instead of aborting the call. -/
theorem c2_trace_soft_failure_accumulation (env : TraceEnv)
    (namespace' kind name : List Char) :
    (traceResourceDeployment env namespace' kind name).2 = none
    ∧ (traceResourceDeployment env namespace' kind name).1.kind = kind
    ∧ (traceResourceDeployment env namespace' kind name).1.name = name
    ∧ (traceResourceDeployment env namespace' kind name).1.namespace' = namespace'
    ∧ (traceResourceDeployment env namespace' kind name).1.errors.length
        = numFailedSteps env namespace' kind name := by
  obtain ⟨h1, h2, h3, h4, -, h6⟩ := trace_fields env namespace' kind name
  exact ⟨h1, h2, h3, h4, h6⟩

/-- A node of an ArgoCD application resource tree. -/
structure ArgoResourceNode where
  kind : List Char := []
  namespace' : List Char := []
  name : List Char := []
  deriving DecidableEq

/-- `models.ArgoResourceTree` (the nodes the correlator walks). -/
structure ArgoResourceTree where
  nodes : List ArgoResourceNode := []
  deriving DecidableEq

/-- The upstream capabilities `FindResourcesAffectedByCommit` calls on
top of the trace: commit and diff lookup, application listing, project
resolution (`ok none` models a nil project with nil error), and resource
trees by application name. -/
structure CommitEnv where
  trace : TraceEnv
  getCommit : List Char → List Char → Except (List Char) GitLabCommit
  getCommitDiff : List Char → List Char → Except (List Char) (List GitLabDiff)
  listApplications : Except (List Char) (List ArgoApplication)
  getProject : List Char → Except (List Char) (Option GitLabProject)
  getResourceTree : List Char → Except (List Char) ArgoResourceTree

/-- `isAppSourcedFromProject`: case-insensitive comparison of the
application's extracted project path with the request's. -/
def isAppSourcedFromProject (app : ArgoApplication) (projectPath : List Char) : Bool :=
  goEqualFold (extractGitLabProjectPath app.sourceRepoURL) projectPath

/-- `isAppAffectedByDiffs`: an empty source path matches everything;
otherwise some changed file's new or old path must extend the source
path. -/
def isAppAffectedByDiffs (app : ArgoApplication) (diffs : List GitLabDiff) : Bool :=
  if app.sourcePath = [] then true
  else diffs.any fun d =>
    goStartsWith d.newPath app.sourcePath || goStartsWith d.oldPath app.sourcePath

/-- `isResourceAlreadyInResults`: dedup by `(kind, name, namespace)`. -/
def isResourceAlreadyInResults (results : List ResourceContext)
    (kind name namespace' : List Char) : Bool :=
  results.any fun rc =>
    decide (rc.kind = kind) && decide (rc.name = name)
      && decide (rc.namespace' = namespace')

/-- The per-node body of the tree walk: skip nameless or kindless nodes
and already-collected identities, then trace; a trace error (which cannot
occur) skips the node.  No synthetic `Commit/<sha>` entry is appended to
`relatedResources` — unlike the merge-request path. -/
def commitNodeStep (env : CommitEnv) (result : List ResourceContext)
    (node : ArgoResourceNode) : List ResourceContext :=
  if node.kind = [] ∨ node.name = [] then result
  else if isResourceAlreadyInResults result node.kind node.name node.namespace' then result
  else
    match traceResourceDeployment env.trace node.namespace' node.kind node.name with
    | (rc, none) => result ++ [rc]
    | (_, some _) => result

/-- The per-application body of `FindResourcesAffectedByCommit`'s loop. -/
def commitAppStep (env : CommitEnv) (projectPath : List Char) (diffs : List GitLabDiff)
    (result : List ResourceContext) (app : ArgoApplication) : List ResourceContext :=
  if isAppSourcedFromProject app projectPath then
    if isAppAffectedByDiffs app diffs then
      match env.getResourceTree app.name with
      | .error _ => result
      | .ok tree => tree.nodes.foldl (commitNodeStep env) result
    else result
  else result

/-- `GitOpsCorrelator.FindResourcesAffectedByCommit`. -/
def findResourcesAffectedByCommit (env : CommitEnv) (projectID commitSHA : List Char) :
    Except (List Char) (List ResourceContext) :=
  match env.getCommit projectID commitSHA with
  | .error e => .error (gs "failed to get commit: " ++ e)
  | .ok _ =>
    match env.getCommitDiff projectID commitSHA with
    | .error e => .error (gs "failed to get commit diff: " ++ e)
    | .ok diffs =>
      match env.listApplications with
      | .error e => .error (gs "failed to list ArgoCD applications: " ++ e)
      | .ok argoApps =>
        let projectPath :=
          match env.getProject projectID with
          | .ok (some project) => project.pathWithNamespace
          | _ => projectID
        .ok (argoApps.foldl (commitAppStep env projectPath diffs) [])

theorem foldl_invariant {α β : Type} (P : β → Prop) (f : β → α → β)
    (hf : ∀ acc x, P acc → P (f acc x)) :
    ∀ (l : List α) (acc : β), P acc → P (l.foldl f acc) := by
  intro l
  induction l with
  | nil => exact fun acc h => h
  | cons x rest ih => exact fun acc h => ih (f acc x) (hf acc x h)

theorem commitNodeStep_no_related (env : CommitEnv) (result : List ResourceContext)
    (node : ArgoResourceNode)
    (h : ∀ rc ∈ result, rc.relatedResources = []) :
    ∀ rc ∈ commitNodeStep env result node, rc.relatedResources = [] := by
  unfold commitNodeStep
  split
  · exact h
  · split
    · exact h
    · rcases htr : traceResourceDeployment env.trace node.namespace' node.kind node.name
        with ⟨rc0, err⟩
      obtain ⟨hnil, -, -, -, hrel, -⟩ := trace_fields env.trace node.namespace' node.kind node.name
      rw [htr] at hnil hrel
      rcases err with _ | e
      · intro rc hrc
        rcases List.mem_append.mp hrc with hrc | hrc
        · exact h rc hrc
        · rw [List.mem_singleton.mp hrc]
          exact hrel
      · cases hnil

theorem commitAppStep_no_related (env : CommitEnv) (projectPath : List Char)
    (diffs : List GitLabDiff) :
    ∀ (acc : List ResourceContext) (app : ArgoApplication),
      (∀ rc ∈ acc, rc.relatedResources = []) →
      ∀ rc ∈ commitAppStep env projectPath diffs acc app, rc.relatedResources = [] := by
  intro acc app hacc
  unfold commitAppStep
  split
  · split
    · rcases env.getResourceTree app.name with e | tree
      · exact hacc
      · exact foldl_invariant _ _ (commitNodeStep_no_related env) tree.nodes acc hacc
    · exact hacc
  · exact hacc

/-- C3 (amended).  Every `ResourceContext` produced by the commit-impact
path has an empty `relatedResources` list: the commit path never appends
a synthetic `Commit/<sha>` entry (only the merge-request path appends
`MergeRequest/<iid>`). -/
theorem c3_commit_impact_no_marker (env : CommitEnv) (projectID commitSHA : List Char)
    (l : List ResourceContext)
    (h : findResourcesAffectedByCommit env projectID commitSHA = .ok l) :
    ∀ rc ∈ l, rc.relatedResources = [] := by
  unfold findResourcesAffectedByCommit at h
  rcases hgc : env.getCommit projectID commitSHA with e | commit
  · simp only [hgc] at h
    exact Except.noConfusion h
  · simp only [hgc] at h
    rcases hgd : env.getCommitDiff projectID commitSHA with e | diffs
    · simp only [hgd] at h
      exact Except.noConfusion h
    · simp only [hgd] at h
      rcases hla : env.listApplications with e | argoApps
      · simp only [hla] at h
        exact Except.noConfusion h
      · simp only [hla, Except.ok.injEq] at h
        subst h
        exact foldl_invariant
          (fun result : List ResourceContext => ∀ rc ∈ result, rc.relatedResources = [])
          _ (commitAppStep_no_related env _ diffs) argoApps []
          (fun rc hrc => absurd hrc (List.not_mem_nil rc))

/-- An ArgoCD application sourced from `gitlab.com/grp/proj` with source
path `apps/web` (spec scenario 5). -/
def c3App : ArgoApplication :=
  { name := gs "web-app", sourceRepoURL := gs "https://gitlab.com/grp/proj.git"
    sourcePath := gs "apps/web", destinationNamespace := gs "default"
    syncStatus := gs "Synced", healthStatus := gs "Healthy" }

/-- A trace environment where the cluster calls succeed and no managing
ArgoCD application is reported for traced nodes (the GitLab calls are
then unreachable). -/
def c3TraceEnv : TraceEnv :=
  { getResource := fun _ _ _ => .ok (gs "apps/v1")
    getResourceEvents := fun _ _ _ => .ok []
    findApplicationsByResource := fun _ _ _ => .ok []
    getApplicationHistory := fun _ => .ok []
    getProjectByPath := fun _ => .error (gs "unreachable")
    listPipelines := fun _ => .error (gs "unreachable")
    findRecentDeployments := fun _ _ => .error (gs "unreachable")
    findRecentChanges := fun _ => .error (gs "unreachable") }

/-- A commit-impact environment realising spec scenario 5: the commit
diff touches `apps/web/values.yaml` (inside the application's source
path) and `infra/README.md`; the application's tree holds one Deployment
node. -/
def c3Env : CommitEnv :=
  { trace := c3TraceEnv
    getCommit := fun _ _ => .ok { shortID := gs "abc123" }
    getCommitDiff := fun _ _ => .ok
      [{ oldPath := gs "apps/web/values.yaml", newPath := gs "apps/web/values.yaml" },
       { oldPath := gs "infra/README.md", newPath := gs "infra/README.md" }]
    listApplications := .ok [c3App]
    getProject := fun _ => .ok (some
      { id := 42, pathWithNamespace := gs "grp/proj"
        webURL := gs "https://gitlab.com/grp/proj" })
    getResourceTree := fun _ => .ok
      { nodes := [{ kind := gs "Deployment", namespace' := gs "default", name := gs "web" }] } }

/-- The context the scenario produces for the Deployment node. -/
def c3Traced : ResourceContext :=
  { kind := gs "Deployment", name := gs "web", namespace' := gs "default"
    apiVersion := gs "apps/v1" }

/-- C3 counterexample to the claim as stated: in the scenario of spec
test 5 the application is affected and one `ResourceContext` is produced,
but its `relatedResources` does not contain `Commit/abc123` — the commit
path appends no synthetic entry at all. -/
theorem c3_commit_marker_counterexample :
    findResourcesAffectedByCommit c3Env (gs "grp/proj") (gs "abc123") = .ok [c3Traced]
    ∧ gs "Commit/abc123" ∉ c3Traced.relatedResources := by
  constructor
  · rfl
  · decide

/-- C3 witness: the amended theorem applied to the concrete scenario. -/
theorem c3_commit_impact_no_marker_witness : c3Traced.relatedResources = [] :=
  c3_commit_impact_no_marker c3Env (gs "grp/proj") (gs "abc123") [c3Traced] rfl
    c3Traced (List.mem_singleton.mpr rfl)

/-!
Model of `ContextManager.FormatResourceContext`
(`internal/mcp/context.go`): the document builder followed by the
size-guarded smart truncation.  Go map iterations (metadata resource
counts, health maps, related-resource grouping) are modelled in list
order; `time.Time`/`CreatedAt` renderings are carried by the data model
(`renderGoTime`).
-/

/-- `strings.Join`-style concatenation with a multi-character separator. -/
def intercalateStr (sep : List Char) : List (List Char) → List Char
  | [] => []
  | [x] => x
  | x :: y :: t => x ++ sep ++ intercalateStr sep (y :: t)

/-- The header lines: resource title, optional namespace, API version. -/
def fmtHeader (rc : ResourceContext) : List Char :=
  gs "# Kubernetes Resource: " ++ rc.kind ++ gs "/" ++ rc.name ++ gs "\n"
  ++ (if rc.namespace' ≠ [] then gs "Namespace: " ++ rc.namespace' ++ gs "\n" else [])
  ++ gs "API Version: " ++ rc.apiVersion ++ gs "\n\n"

/-- The fenced `## Resource Details` block. -/
def fmtResourceData (rc : ResourceContext) : List Char :=
  if rc.resourceData ≠ [] then
    gs "## Resource Details\n```json\n" ++ rc.resourceData ++ gs "\n```\n\n"
  else []

/-- One optional replica-count line. -/
def fmtOptInt (label : List Char) : Option Int → List Char
  | some n => label ++ intToStr n ++ gs "\n"
  | none => []

/-- One request/limit map rendered as indented `k: v` lines. -/
def fmtQuantities (header : List Char) : Option (List (List Char × List Char)) → List Char
  | some pairs => header ++ pairs.flatMap fun kv => gs "       " ++ kv.1 ++ gs ": " ++ kv.2 ++ gs "\n"
  | none => []

/-- One container entry of the `### Containers` list. -/
def fmtContainer (i : Nat) (c : ContainerInfo) : List Char :=
  intToStr (i + 1) ++ gs ". Name: " ++ c.name ++ gs "\n"
  ++ (match c.image with
      | some image => gs "   Image: " ++ image ++ gs "\n"
      | none => [])
  ++ (match c.resources with
      | some res =>
        gs "   Resources:\n"
        ++ fmtQuantities (gs "     Requests:\n") res.requests
        ++ fmtQuantities (gs "     Limits:\n") res.limits
      | none => [])

/-- The indexed container loop. -/
def fmtContainers : Nat → List ContainerInfo → List Char
  | _, [] => []
  | i, c :: rest => fmtContainer i c ++ fmtContainers (i + 1) rest

/-- The `## Deployment Status` block (only for Deployment kind with
metadata present). -/
def fmtDeploymentMeta (rc : ResourceContext) : List Char :=
  match rc.metadata with
  | none => []
  | some md =>
    if goEqualFold rc.kind (gs "deployment") then
      gs "## Deployment Status\n"
      ++ fmtOptInt (gs "Desired Replicas: ") md.desiredReplicas
      ++ fmtOptInt (gs "Current Replicas: ") md.currentReplicas
      ++ fmtOptInt (gs "Ready Replicas: ") md.readyReplicas
      ++ fmtOptInt (gs "Available Replicas: ") md.availableReplicas
      ++ (match md.containers with
          | some containers =>
            if containers.length > 0 then gs "\n### Containers\n" ++ fmtContainers 0 containers
            else []
          | none => [])
      ++ gs "\n"
    else []

/-- The Go loop that lists up to five names and then
`and %d more...` (no separator precedes the suffix, as in the code). -/
def fmtNameList5 (names : List (List Char)) : List Char :=
  intercalateStr (gs ", ") (names.take 5)
  ++ (if names.length > 5 then gs "and " ++ intToStr (names.length - 5) ++ gs " more..." else [])

/-- One `## Resources in Namespace` entry. -/
def fmtResourceCount (kv : List Char × List (List Char)) : List Char :=
  gs "- " ++ kv.1 ++ gs ": " ++ intToStr kv.2.length ++ gs " resources\n"
  ++ (if kv.2.length > 0 then gs "  - " ++ fmtNameList5 kv.2 ++ gs "\n" else [])

/-- One `## Health Status` entry: per-kind counts plus up to five
unhealthy names. -/
def fmtHealthEntry (kv : List Char × List (List Char × List Char)) : List Char :=
  let statuses := kv.2
  let healthy := statuses.countP fun s => decide (s.2 = gs "healthy")
  let unhealthy := statuses.countP fun s => decide (s.2 = gs "unhealthy")
  let progressing := statuses.countP fun s => decide (s.2 = gs "progressing")
  let unknown := statuses.countP fun s =>
    decide (s.2 ≠ gs "healthy" ∧ s.2 ≠ gs "unhealthy" ∧ s.2 ≠ gs "progressing")
  let unhealthyResources := (statuses.filter fun s => decide (s.2 = gs "unhealthy")).map (·.1)
  gs "- " ++ kv.1 ++ gs ": " ++ intToStr healthy ++ gs " healthy, " ++ intToStr unhealthy
  ++ gs " unhealthy, " ++ intToStr progressing ++ gs " progressing, " ++ intToStr unknown
  ++ gs " unknown\n"
  ++ (if unhealthyResources.length > 0 then
        gs "  Unhealthy: " ++ fmtNameList5 unhealthyResources ++ gs "\n"
      else [])

/-- The namespace-specific blocks (only for Namespace kind with metadata
present). -/
def fmtNamespaceMeta (rc : ResourceContext) : List Char :=
  if goEqualFold rc.kind (gs "namespace") then
    match rc.metadata with
    | none => []
    | some md =>
      (match md.resourceCounts with
       | some resourceCounts =>
         gs "## Resources in Namespace\n"
         ++ resourceCounts.flatMap fmtResourceCount ++ gs "\n"
       | none => [])
      ++ (match md.health with
          | some health =>
            gs "## Health Status\n" ++ health.flatMap fmtHealthEntry ++ gs "\n"
          | none => [])
  else []

/-- The indexed `### Recent Sync History` loop. -/
def fmtHistoryEntries : Nat → List ArgoHistoryEntry → List Char
  | _, [] => []
  | i, h :: rest =>
    intToStr (i + 1) ++ gs ". [" ++ h.deployedAt ++ gs "] Revision: " ++ h.revision
      ++ gs ", Status: " ++ h.status ++ gs "\n"
      ++ fmtHistoryEntries (i + 1) rest

/-- The `## ArgoCD Application` block. -/
def fmtArgo (rc : ResourceContext) : List Char :=
  match rc.argoApplication with
  | none => []
  | some app =>
    gs "## ArgoCD Application\n"
    ++ gs "Name: " ++ app.name ++ gs "\n"
    ++ gs "Sync Status: " ++ rc.argoSyncStatus ++ gs "\n"
    ++ gs "Health Status: " ++ rc.argoHealthStatus ++ gs "\n"
    ++ (if app.sourceRepoURL ≠ [] then
          gs "Source: " ++ app.sourceRepoURL ++ gs "\n"
          ++ gs "Path: " ++ app.sourcePath ++ gs "\n"
          ++ gs "Target Revision: " ++ app.sourceTargetRevision ++ gs "\n"
        else [])
    ++ gs "\n"
    ++ (if rc.argoSyncHistory.length > 0 then
          gs "### Recent Sync History\n" ++ fmtHistoryEntries 0 rc.argoSyncHistory ++ gs "\n"
        else [])

/-- The indexed `### Recent Commits` loop. -/
def fmtCommitEntries : Nat → List GitLabCommit → List Char
  | _, [] => []
  | i, c :: rest =>
    intToStr (i + 1) ++ gs ". [" ++ renderGoTime c.createdAt ++ gs "] " ++ c.shortID
      ++ gs " by " ++ c.authorName ++ gs ": " ++ c.title ++ gs "\n"
      ++ fmtCommitEntries (i + 1) rest

/-- The `## GitLab Project` block with pipeline, deployment and commits. -/
def fmtGitLab (rc : ResourceContext) : List Char :=
  match rc.gitlabProject with
  | none => []
  | some project =>
    gs "## GitLab Project\n"
    ++ gs "Name: " ++ project.pathWithNamespace ++ gs "\n"
    ++ gs "URL: " ++ project.webURL ++ gs "\n\n"
    ++ (match rc.lastPipeline with
        | some p =>
          gs "### Last Pipeline\n"
          ++ gs "Status: " ++ p.status ++ gs "\n"
          ++ gs "Ref: " ++ p.ref ++ gs "\n"
          ++ gs "SHA: " ++ p.sha ++ gs "\n"
          ++ gs "Created At: " ++ renderGoTime p.createdAt ++ gs "\n\n"
        | none => [])
    ++ (match rc.lastDeployment with
        | some d =>
          gs "### Last Deployment\n"
          ++ gs "Status: " ++ d.status ++ gs "\n"
          ++ gs "Environment: " ++ d.environmentName ++ gs "\n"
          ++ gs "Created At: " ++ renderGoTime d.createdAt ++ gs "\n\n"
        | none => [])
    ++ (if rc.recentCommits.length > 0 then
          gs "### Recent Commits\n" ++ fmtCommitEntries 0 rc.recentCommits ++ gs "\n"
        else [])

/-- The indexed `## Recent Kubernetes Events` loop. -/
def fmtEventEntries : Nat → List K8sEvent → List Char
  | _, [] => []
  | i, e :: rest =>
    intToStr (i + 1) ++ gs ". [" ++ e.eventType ++ gs "] " ++ e.reason ++ gs ": "
      ++ e.message ++ gs "\n"
      ++ fmtEventEntries (i + 1) rest

/-- The events block. -/
def fmtEvents (rc : ResourceContext) : List Char :=
  if rc.events.length > 0 then
    gs "## Recent Kubernetes Events\n" ++ fmtEventEntries 0 rc.events ++ gs "\n"
  else []

/-- Append a name under its kind in the grouping map (`resourcesByKind`;
first-occurrence insertion order models the Go map). -/
def addToGroup : List (List Char × List (List Char)) → List Char → List Char →
    List (List Char × List (List Char))
  | [], k, v => [(k, [v])]
  | (k', vs) :: rest, k, v =>
    if k' = k then (k', vs ++ [v]) :: rest else (k', vs) :: addToGroup rest k v

/-- First pass over `relatedResources`, in list order: group well-formed
`Kind/Name` entries, render malformed entries inline as they are
encountered. -/
def groupRelated (resources : List (List Char)) :
    List Char × List (List Char × List (List Char)) :=
  resources.foldl
    (fun acc resource =>
      match splitOnChar '/' resource with
      | [kind, name] => (acc.1, addToGroup acc.2 kind name)
      | _ => (acc.1 ++ gs "- " ++ resource ++ gs "\n", acc.2))
    ([], [])

/-- One grouped `## Related Resources` entry with the 10-name cap. -/
def fmtRelatedGroup (kv : List Char × List (List Char)) : List Char :=
  gs "- " ++ kv.1 ++ gs " (" ++ intToStr kv.2.length ++ gs "):\n"
  ++ (if kv.2.length > 10 then
        (kv.2.take 10).flatMap (fun n => gs "  - " ++ n ++ gs "\n")
        ++ gs "  - ... and " ++ intToStr (kv.2.length - 10) ++ gs " more\n"
      else kv.2.flatMap fun n => gs "  - " ++ n ++ gs "\n")

/-- The `## Related Resources` block. -/
def fmtRelated (rc : ResourceContext) : List Char :=
  if rc.relatedResources.length > 0 then
    let grouped := groupRelated rc.relatedResources
    gs "## Related Resources\n"
    ++ grouped.1
    ++ grouped.2.flatMap fmtRelatedGroup
    ++ gs "\n"
  else []

/-- The `## Errors in Data Collection` block. -/
def fmtErrors (rc : ResourceContext) : List Char :=
  if rc.errors.length > 0 then
    gs "## Errors in Data Collection\n"
    ++ rc.errors.flatMap (fun e => gs "- " ++ e ++ gs "\n")
    ++ gs "\n"
  else []

/-- The complete document `FormatResourceContext` assembles before the
size check. -/
def buildFormattedContext (rc : ResourceContext) : List Char :=
  fmtHeader rc ++ fmtResourceData rc ++ fmtDeploymentMeta rc ++ fmtNamespaceMeta rc
    ++ fmtArgo rc ++ fmtGitLab rc ++ fmtEvents rc ++ fmtRelated rc ++ fmtErrors rc

/-- `ContextManager.FormatResourceContext`: build the document and pass it
through smart truncation when it exceeds the configured maximum context
size.  `none` models a truncation panic (impossible at the sizes the
repository configures). -/
def formatResourceContext (rc : ResourceContext) (maxContextSize : Int) :
    Option (List Char) :=
  let doc := buildFormattedContext rc
  if (doc.length : Int) > maxContextSize then truncateContextSmartly doc maxContextSize
  else some doc

/-- C1.  For every `ResourceContext` and any configured maximum context
size of at least the 29-byte truncation notice (every configuration the
repository creates uses 100 000), `FormatResourceContext` returns a
document of length at most the maximum: an over-long document is passed
through smart truncation, whose result never exceeds such a limit. -/
theorem c1_format_length_bounded (rc : ResourceContext) (maxContextSize : Int)
    (h : 29 ≤ maxContextSize) :
    ∃ t, formatResourceContext rc maxContextSize = some t
      ∧ (t.length : Int) ≤ maxContextSize := by
  unfold formatResourceContext
  by_cases hlen : ((buildFormattedContext rc).length : Int) > maxContextSize
  · rw [if_pos hlen]
    exact truncate_overflow_bound _ _ h (by omega)
  · rw [if_neg hlen]
    exact ⟨_, rfl, by omega⟩

/-- C1 witness: the bound applied at the configured limit 100 000 to the
empty resource context. -/
theorem c1_format_length_bounded_witness :
    (29 : Int) ≤ 100000
    ∧ ∃ t, formatResourceContext {} 100000 = some t ∧ (t.length : Int) ≤ 100000 :=
  ⟨by norm_num, c1_format_length_bounded {} 100000 (by norm_num)⟩

end KMCP
